import Mathlib

set_option maxRecDepth 100000

/-!
Verification of the melana-proxier M3U8 proxy server (src/main.py).

The source is a single Python file.  Python strings are sequences of Unicode
code points (which, unlike Lean `Char`s, may include lone surrogates, since
`json.loads` can produce them), so throughout this development a Python `str`
is modelled as `List Nat` of code points and Python `bytes` as `List Nat` of
values `< 256`.  Pure functions of the source are translated one-to-one;
the request handler is modelled as a pure function over oracle parameters
for the cache store and the upstream fetch (its only effects).
-/

/-- Code points of a Lean string literal: bridge from Lean literals to the
Python-string model (a Python `str` is a sequence of Unicode code points,
modelled as `List Nat`). -/
def cp (s : String) : List Nat := s.data.map Char.toNat

/-- Python `s.startswith(pre)`. -/
def pyStartsWith (s pre : List Nat) : Bool := pre.isPrefixOf s

/-- Python `s.endswith(suf)`. -/
def pyEndsWith (s suf : List Nat) : Bool := suf.isSuffixOf s

/-- Python `sub in s` (contiguous substring test). -/
def pyContains : List Nat → List Nat → Bool
  | [], sub => sub.isEmpty
  | s@(_ :: t), sub => pyStartsWith s sub || pyContains t sub

/-- Python `s.split(sep)` for a one-character separator `sep`
(as in `content.split("\n")`): empty parts are kept, `split` of the
empty string is `[""]`. -/
def pySplitCh (sep : Nat) : List Nat → List (List Nat)
  | [] => [[]]
  | c :: rest =>
    let r := pySplitCh sep rest
    if c = sep then [] :: r
    else
      match r with
      | [] => [[c]]
      | l :: ls => (c :: l) :: ls

/-- Python `"\n".join(lines)`. -/
def pyJoinNl : List (List Nat) → List Nat
  | [] => []
  | [l] => l
  | l :: ls => l ++ 10 :: pyJoinNl ls

/-- Python `str.isspace` on one code point — the set of code points stripped
by `str.strip()` with no argument. -/
def pyIsSpace (c : Nat) : Bool :=
  (9 ≤ c ∧ c ≤ 13) ∨ (28 ≤ c ∧ c ≤ 31) ∨ c = 32 ∨ c = 133 ∨ c = 160 ∨
    c = 5760 ∨ (8192 ≤ c ∧ c ≤ 8202) ∨ c = 8232 ∨ c = 8233 ∨ c = 8239 ∨
    c = 8287 ∨ c = 12288

/-- Python `s.strip()` (whitespace strip at both ends). -/
def pyStrip (s : List Nat) : List Nat :=
  ((s.dropWhile pyIsSpace).reverse.dropWhile pyIsSpace).reverse

/-- ASCII lower-casing of one code point.  Python's `str.lower()` also maps
some non-ASCII code points; none of the patterns searched for in the source
(`".m3u8"`, `".ts"`, media extensions, …) contain characters reachable from a
different code point by Unicode case mapping followed by an exact ASCII
comparison, so the ASCII mapping is the relevant part of the model. -/
def asciiLowerCh (c : Nat) : Nat := if 65 ≤ c ∧ c ≤ 90 then c + 32 else c

/-- Python `s.lower()` (see `asciiLowerCh`). -/
def pyLower (s : List Nat) : List Nat := s.map asciiLowerCh

/-! ### Base64 (Python `base64` / `binascii`)

`rewrite_m3u8_urls` encodes with `base64.urlsafe_b64encode(...).rstrip("=")`;
`decode_proxy_data` decodes with `base64.urlsafe_b64decode` after re-adding
padding.  `urlsafe_b64decode` translates `-`/`_` to `+`/`/` and calls
`b64decode` with `validate=False`, which is CPython's lenient
`binascii.a2b_base64`: characters outside the alphabet are skipped, a padding
run that completes a quad ends the decode, and a final partial quad is an
error (`binascii.Error`). -/

/-- Character `v` (for `v < 64`) of the URL-safe base64 alphabet
(`A-Z a-z 0-9 - _`). -/
def b64char (v : Nat) : Nat :=
  if v < 26 then 65 + v
  else if v < 52 then 97 + (v - 26)
  else if v < 62 then 48 + (v - 52)
  else if v = 62 then 45
  else 95

/-- `base64.urlsafe_b64encode` on bytes (with `=` padding, code point 61). -/
def b64encode : List Nat → List Nat
  | b0 :: b1 :: b2 :: rest =>
      b64char (b0 / 4) :: b64char (b0 % 4 * 16 + b1 / 16) ::
        b64char (b1 % 16 * 4 + b2 / 64) :: b64char (b2 % 64) :: b64encode rest
  | [b0, b1] => [b64char (b0 / 4), b64char (b0 % 4 * 16 + b1 / 16), b64char (b1 % 16 * 4), 61]
  | [b0] => [b64char (b0 / 4), b64char (b0 % 4 * 16), 61, 61]
  | [] => []

/-- Python `s.rstrip("=")`. -/
def rstripEq (s : List Nat) : List Nat := (s.reverse.dropWhile (· = 61)).reverse

/-- Value of a standard-alphabet base64 character (`none` for characters
outside the alphabet, which non-strict `a2b_base64` skips). -/
def b64val (c : Nat) : Option Nat :=
  if 65 ≤ c ∧ c ≤ 90 then some (c - 65)
  else if 97 ≤ c ∧ c ≤ 122 then some (c - 97 + 26)
  else if 48 ≤ c ∧ c ≤ 57 then some (c - 48 + 52)
  else if c = 43 then some 62
  else if c = 47 then some 63
  else none

/-- The `-`→`+`, `_`→`/` translation done by `base64.urlsafe_b64decode`. -/
def urlsafeTranslate (c : Nat) : Nat := if c = 45 then 43 else if c = 95 then 47 else c

/-- State machine of CPython `binascii.a2b_base64` (non-strict mode):
`quadPos` is the position in the current 4-character quad, `leftchar` the
pending bits, `pads` the count of padding characters seen since the last data
character, `acc` the output bytes in reverse.  A `=` that completes a quad
(`quadPos ≥ 2` and `quadPos + pads + 1 ≥ 4`) ends the decode successfully,
discarding the rest; other `=` are skipped (counting `pads` only when
`quadPos ≥ 2`); non-alphabet characters are skipped; leftover `quadPos ≠ 0`
at the end is an error. -/
def a2bGo : List Nat → Nat → Nat → Nat → List Nat → Option (List Nat)
  | [], quadPos, _, _, acc => if quadPos = 0 then some acc.reverse else none
  | c :: rest, quadPos, leftchar, pads, acc =>
    if c = 61 then
      if 2 ≤ quadPos ∧ 4 ≤ quadPos + (pads + 1) then some acc.reverse
      else a2bGo rest quadPos leftchar (if 2 ≤ quadPos then pads + 1 else pads) acc
    else
      match b64val c with
      | none => a2bGo rest quadPos leftchar pads acc
      | some v =>
        match quadPos with
        | 0 => a2bGo rest 1 v 0 acc
        | 1 => a2bGo rest 2 (v % 16) 0 ((leftchar * 4 + v / 16) :: acc)
        | 2 => a2bGo rest 3 (v % 4) 0 ((leftchar * 16 + v / 4) :: acc)
        | _ => a2bGo rest 0 0 0 ((leftchar * 64 + v) :: acc)

/-- `binascii.a2b_base64` (non-strict), i.e. `base64.b64decode(s, validate=False)`
on characters already translated to the standard alphabet. -/
def a2b_base64 (s : List Nat) : Option (List Nat) := a2bGo s 0 0 0 []

/-- `base64.urlsafe_b64decode` on an ASCII string (the ASCII check that
`_bytes_from_decode_data` performs on the `str` argument is modelled at the
call site in `decode_proxy_data`, where its failure is a plain `ValueError`). -/
def urlsafe_b64decode (s : List Nat) : Option (List Nat) :=
  a2b_base64 (s.map urlsafeTranslate)

/-! #### Base64 round-trip -/

/-- Each URL-safe alphabet character decodes (after translation) to its value. -/
theorem b64val_translate_b64char : ∀ v : Nat, v < 64 →
    b64val (urlsafeTranslate (b64char v)) = some v := by decide

/-- Every alphabet character is distinct from `=`, `.`, CR, LF and is ASCII. -/
theorem b64char_props : ∀ v : Nat, v < 64 →
    b64char v ≠ 61 ∧ b64char v ≠ 46 ∧ b64char v ≠ 10 ∧ b64char v ≠ 13 ∧ b64char v < 128 := by
  decide

/-- Decoding the translated encoding of a byte list from a fresh quad
position appends exactly those bytes to the accumulator. -/
theorem a2bGo_encode : ∀ (bs : List Nat), (∀ b ∈ bs, b < 256) → ∀ acc : List Nat,
    a2bGo ((b64encode bs).map urlsafeTranslate) 0 0 0 acc = some (acc.reverse ++ bs)
  | [], _, acc => by simp [b64encode, a2bGo]
  | [b0], h, acc => by
    have hb0 : b0 < 256 := h b0 (by simp)
    have h1 : b0 / 4 < 64 := by omega
    have h2 : b0 % 4 * 16 < 64 := by omega
    simp only [b64encode, List.map_cons, List.map_nil, a2bGo,
      b64val_translate_b64char _ h1, b64val_translate_b64char _ h2]
    have e61 : ∀ w : Nat, w < 64 → urlsafeTranslate (b64char w) ≠ 61 := by decide
    rw [if_neg (e61 _ h1), if_neg (e61 _ h2)]
    have e' : urlsafeTranslate 61 = 61 := rfl
    rw [e']
    norm_num [List.append_right_inj]
    omega
  | [b0, b1], h, acc => by
    have hb0 : b0 < 256 := h b0 (by simp)
    have hb1 : b1 < 256 := h b1 (by simp)
    have h1 : b0 / 4 < 64 := by omega
    have h2 : b0 % 4 * 16 + b1 / 16 < 64 := by omega
    have h3 : b1 % 16 * 4 < 64 := by omega
    have e61 : ∀ w : Nat, w < 64 → urlsafeTranslate (b64char w) ≠ 61 := by decide
    simp only [b64encode, List.map_cons, List.map_nil, a2bGo,
      b64val_translate_b64char _ h1, b64val_translate_b64char _ h2,
      b64val_translate_b64char _ h3]
    rw [if_neg (e61 _ h1), if_neg (e61 _ h2), if_neg (e61 _ h3)]
    have e' : urlsafeTranslate 61 = 61 := rfl
    rw [e']
    norm_num [List.append_right_inj]
    omega
  | b0 :: b1 :: b2 :: rest, h, acc => by
    have hb0 : b0 < 256 := h b0 (by simp)
    have hb1 : b1 < 256 := h b1 (by simp)
    have hb2 : b2 < 256 := h b2 (by simp)
    have h1 : b0 / 4 < 64 := by omega
    have h2 : b0 % 4 * 16 + b1 / 16 < 64 := by omega
    have h3 : b1 % 16 * 4 + b2 / 64 < 64 := by omega
    have h4 : b2 % 64 < 64 := by omega
    have e61 : ∀ w : Nat, w < 64 → urlsafeTranslate (b64char w) ≠ 61 := by decide
    have ih := a2bGo_encode rest (fun b hb => h b (by simp [hb]))
      (b2 :: b1 :: b0 :: acc)
    simp only [b64encode, List.map_cons, a2bGo,
      b64val_translate_b64char _ h1, b64val_translate_b64char _ h2,
      b64val_translate_b64char _ h3, b64val_translate_b64char _ h4]
    rw [if_neg (e61 _ h1), if_neg (e61 _ h2), if_neg (e61 _ h3), if_neg (e61 _ h4)]
    have eb0 : b0 / 4 * 4 + (b0 % 4 * 16 + b1 / 16) / 16 = b0 := by omega
    have eb1 : (b0 % 4 * 16 + b1 / 16) % 16 * 16 + (b1 % 16 * 4 + b2 / 64) / 4 = b1 := by omega
    have eb2 : (b1 % 16 * 4 + b2 / 64) % 4 * 64 + b2 % 64 = b2 := by omega
    rw [eb0, eb1, eb2, ih]
    simp

/-- `a2b_base64` inverts `b64encode` (after URL-safe translation). -/
theorem a2b_encode (bs : List Nat) (h : ∀ b ∈ bs, b < 256) :
    urlsafe_b64decode (b64encode bs) = some bs := by
  simpa [urlsafe_b64decode, a2b_base64] using a2bGo_encode bs h []

/-- Shape of `b64encode`: an alphabet core followed by exactly the padding
that `decode_proxy_data`'s length formula re-derives. -/
theorem b64encode_shape : ∀ bs : List Nat, (∀ b ∈ bs, b < 256) →
    ∃ core k, b64encode bs = core ++ List.replicate k 61 ∧
      (∀ c ∈ core, ∃ v, v < 64 ∧ c = b64char v) ∧
      k = (4 - core.length % 4) % 4 ∧ k ≤ 2
  | [], _ => ⟨[], 0, by simp [b64encode]⟩
  | [b0], hb => by
    have hb0 : b0 < 256 := hb b0 (by simp)
    refine ⟨[b64char (b0 / 4), b64char (b0 % 4 * 16)], 2,
      by simp [b64encode, List.replicate], ?_, by simp, by omega⟩
    intro c hc
    simp at hc
    rcases hc with h | h
    · exact ⟨b0 / 4, by omega, h⟩
    · exact ⟨b0 % 4 * 16, by omega, h⟩
  | [b0, b1], hb => by
    have hb0 : b0 < 256 := hb b0 (by simp)
    have hb1 : b1 < 256 := hb b1 (by simp)
    refine ⟨[b64char (b0 / 4), b64char (b0 % 4 * 16 + b1 / 16), b64char (b1 % 16 * 4)], 1,
      by simp [b64encode, List.replicate], ?_, by simp, by omega⟩
    intro c hc
    simp at hc
    rcases hc with h | h | h
    · exact ⟨b0 / 4, by omega, h⟩
    · exact ⟨b0 % 4 * 16 + b1 / 16, by omega, h⟩
    · exact ⟨b1 % 16 * 4, by omega, h⟩
  | b0 :: b1 :: b2 :: rest, hb => by
    have hb0 : b0 < 256 := hb b0 (by simp)
    have hb1 : b1 < 256 := hb b1 (by simp)
    have hb2 : b2 < 256 := hb b2 (by simp)
    obtain ⟨core, k, henc, hmem, hk, hk2⟩ :=
      b64encode_shape rest (fun b h => hb b (by simp [h]))
    refine ⟨b64char (b0 / 4) :: b64char (b0 % 4 * 16 + b1 / 16) ::
        b64char (b1 % 16 * 4 + b2 / 64) :: b64char (b2 % 64) :: core, k, ?_, ?_, ?_, hk2⟩
    · simp [b64encode, henc]
    · intro c hc
      simp at hc
      rcases hc with h | h | h | h | h
      · exact ⟨b0 / 4, by omega, h⟩
      · exact ⟨b0 % 4 * 16 + b1 / 16, by omega, h⟩
      · exact ⟨b1 % 16 * 4 + b2 / 64, by omega, h⟩
      · exact ⟨b2 % 64, by omega, h⟩
      · exact hmem c h
    · simp only [List.length_cons]
      omega

/-- `rstrip("=")` of a `=`-free list followed by `=`-padding returns the list. -/
theorem rstripEq_append_replicate (s : List Nat) (k : Nat) (h : ∀ c ∈ s, c ≠ 61) :
    rstripEq (s ++ List.replicate k 61) = s := by
  unfold rstripEq
  rw [List.reverse_append, List.reverse_replicate]
  have hrep : ∀ n (t : List Nat),
      (List.replicate n 61 ++ t).dropWhile (· = 61) = t.dropWhile (· = 61) := by
    intro n
    induction n with
    | zero => simp
    | succ m ih => intro t; simp [List.replicate_succ, List.dropWhile_cons, ih t]
  rw [hrep]
  cases hs : s.reverse with
  | nil => simp at hs; simp [hs]
  | cons a t =>
    have ha : a ∈ s := by
      have : a ∈ s.reverse := by rw [hs]; simp
      simpa using this
    rw [List.dropWhile_cons, if_neg (by simp [h a ha])]
    rw [← hs, List.reverse_reverse]

/-- The token minted by the rewriter (`rstrip("=")` of the encoding) plus the
re-derived padding is the original padded encoding. -/
theorem repad_rstrip_b64encode (bs : List Nat) (hb : ∀ b ∈ bs, b < 256) :
    rstripEq (b64encode bs) ++
      List.replicate ((4 - (rstripEq (b64encode bs)).length % 4) % 4) 61 = b64encode bs := by
  obtain ⟨core, k, henc, hmem, hk, _⟩ := b64encode_shape bs hb
  have hne : ∀ c ∈ core, c ≠ 61 := by
    intro c hc
    obtain ⟨v, hv, rfl⟩ := hmem c hc
    exact (b64char_props v hv).1
  rw [henc, rstripEq_append_replicate core k hne, ← hk]

/-- Characters of the minted token are alphabet characters. -/
theorem rstrip_b64encode_chars (bs : List Nat) (hb : ∀ b ∈ bs, b < 256) :
    ∀ c ∈ rstripEq (b64encode bs), ∃ v, v < 64 ∧ c = b64char v := by
  obtain ⟨core, k, henc, hmem, hk, _⟩ := b64encode_shape bs hb
  have hne : ∀ c ∈ core, c ≠ 61 := by
    intro c hc
    obtain ⟨v, hv, rfl⟩ := hmem c hc
    exact (b64char_props v hv).1
  rw [henc, rstripEq_append_replicate core k hne]
  exact hmem

/-- If a string contains no `.` it does not end with `".m3u8"`. -/
theorem not_endsWith_m3u8_of_no_dot (s : List Nat) (h : 46 ∉ s) :
    pyEndsWith s (cp ".m3u8") = false := by
  by_contra hc
  have hsuf : cp ".m3u8" <:+ s := by
    rw [← List.isSuffixOf_iff_suffix]
    simpa [pyEndsWith] using hc
  exact h (hsuf.subset (by simp [cp]))

/-! ### UTF-8 (Python `str.encode("utf-8")` / `bytes.decode("utf-8")`) -/

/-- Strict UTF-8 encoding of one code point (`str.encode("utf-8")` raises
`UnicodeEncodeError` on surrogates and there are no code points above
`0x10FFFF` in a Python `str`). -/
def utf8EncodeCh (c : Nat) : Option (List Nat) :=
  if c < 128 then some [c]
  else if c < 2048 then some [192 + c / 64, 128 + c % 64]
  else if c < 65536 then
    if 55296 ≤ c ∧ c ≤ 57343 then none
    else some [224 + c / 4096, 128 + c / 64 % 64, 128 + c % 64]
  else if c < 1114112 then
    some [240 + c / 262144, 128 + c / 4096 % 64, 128 + c / 64 % 64, 128 + c % 64]
  else none

/-- `str.encode("utf-8")`. -/
def utf8Encode : List Nat → Option (List Nat)
  | [] => some []
  | c :: rest => do pure ((← utf8EncodeCh c) ++ (← utf8Encode rest))

/-- Strict decoding of one UTF-8-encoded code point from the front of a byte
list: rejects bad lead or continuation bytes, overlong forms, surrogates and
values above `0x10FFFF`, exactly as `bytes.decode("utf-8")` does. -/
def utf8DecodeOne : List Nat → Option (Nat × List Nat)
  | [] => none
  | b0 :: rest =>
    if b0 < 128 then some (b0, rest)
    else if 194 ≤ b0 ∧ b0 ≤ 223 then
      match rest with
      | b1 :: rest' =>
        if 128 ≤ b1 ∧ b1 ≤ 191 then some ((b0 - 192) * 64 + (b1 - 128), rest') else none
      | [] => none
    else if 224 ≤ b0 ∧ b0 ≤ 239 then
      match rest with
      | b1 :: b2 :: rest' =>
        if (if b0 = 224 then 160 ≤ b1 ∧ b1 ≤ 191
            else if b0 = 237 then 128 ≤ b1 ∧ b1 ≤ 159
            else 128 ≤ b1 ∧ b1 ≤ 191) ∧ 128 ≤ b2 ∧ b2 ≤ 191 then
          some ((b0 - 224) * 4096 + (b1 - 128) * 64 + (b2 - 128), rest')
        else none
      | _ => none
    else if 240 ≤ b0 ∧ b0 ≤ 244 then
      match rest with
      | b1 :: b2 :: b3 :: rest' =>
        if (if b0 = 240 then 144 ≤ b1 ∧ b1 ≤ 191
            else if b0 = 244 then 128 ≤ b1 ∧ b1 ≤ 143
            else 128 ≤ b1 ∧ b1 ≤ 191) ∧ 128 ≤ b2 ∧ b2 ≤ 191 ∧ 128 ≤ b3 ∧ b3 ≤ 191 then
          some ((b0 - 240) * 262144 + (b1 - 128) * 4096 + (b2 - 128) * 64 + (b3 - 128), rest')
        else none
      | _ => none
    else none

/-- Fuelled decode loop; `utf8DecodeOne` consumes at least one byte per code
point, so fuel equal to the byte count never runs out. -/
def utf8DecodeGo : Nat → List Nat → Option (List Nat)
  | _, [] => some []
  | 0, _ :: _ => none
  | fuel + 1, b :: bs =>
    match utf8DecodeOne (b :: bs) with
    | none => none
    | some (c, rest) => (utf8DecodeGo fuel rest).map (c :: ·)

/-- `bytes.decode("utf-8")` (strict; raises `UnicodeDecodeError` = `none`). -/
def utf8Decode (s : List Nat) : Option (List Nat) := utf8DecodeGo s.length s

/-- Encoding an all-ASCII string is the identity on code points. -/
theorem utf8Encode_ascii (s : List Nat) (h : ∀ c ∈ s, c < 128) :
    utf8Encode s = some s := by
  induction s with
  | nil => rfl
  | cons c rest ih =>
    have hc : c < 128 := h c (by simp)
    have := ih (fun x hx => h x (by simp [hx]))
    simp [utf8Encode, utf8EncodeCh, hc, this]

/-- The fuelled decode loop on all-ASCII bytes is the identity. -/
theorem utf8DecodeGo_ascii (fuel : Nat) (s : List Nat) (h : ∀ c ∈ s, c < 128)
    (hf : s.length ≤ fuel) : utf8DecodeGo fuel s = some s := by
  induction fuel generalizing s with
  | zero =>
    cases s with
    | nil => rfl
    | cons c rest => simp at hf
  | succ m ih =>
    cases s with
    | nil => rfl
    | cons c rest =>
      have hc : c < 128 := h c (by simp)
      have hrest := ih rest (fun x hx => h x (by simp [hx])) (by simp at hf; omega)
      simp [utf8DecodeGo, utf8DecodeOne, hc, hrest]

/-- Decoding all-ASCII bytes is the identity on code points. -/
theorem utf8Decode_ascii (s : List Nat) (h : ∀ c ∈ s, c < 128) :
    utf8Decode s = some s :=
  utf8DecodeGo_ascii s.length s h (Nat.le_refl _)

/-! ### JSON (Python `json.dumps(..., separators=(",", ":"))` / `json.loads`)

`rewrite_m3u8_urls` serialises the descriptor dict with `json.dumps` (default
`ensure_ascii=True`, so every code point outside `0x20..0x7E` is written as a
`\uXXXX` escape, astral code points as a surrogate pair of escapes) and
`decode_proxy_data` parses with `json.loads` (CPython's C scanner: strict
strings, `\uXXXX` escapes with surrogate-pair combination, the extra
constants `NaN`/`Infinity`/`-Infinity`, no trailing data). -/

/-- JSON values as produced by `json.loads`.  Numbers keep their source
lexeme: their numeric value (a Python `int` or `float`) is used by `main.py`
only inside pydantic coercions that reject them anyway for the fields of
`ProxyData`, so no claim depends on it; the constants `NaN`, `Infinity`,
`-Infinity` that Python additionally accepts are stored as `jnum` lexemes. -/
inductive PyJson where
  | jnull : PyJson
  | jbool : Bool → PyJson
  | jnum : List Nat → PyJson
  | jstr : List Nat → PyJson
  | jarr : List PyJson → PyJson
  | jobj : List (List Nat × PyJson) → PyJson

/-- Lower-case hex digit, as `json.dumps` emits in `\uXXXX` escapes. -/
def hexDig (n : Nat) : Nat := if n < 10 then 48 + n else 87 + n

/-- Four lower-case hex digits of `n < 0x10000`. -/
def hex4 (n : Nat) : List Nat :=
  [hexDig (n / 4096 % 16), hexDig (n / 256 % 16), hexDig (n / 16 % 16), hexDig (n % 16)]

/-- Escape of one code point in `json.dumps` output with `ensure_ascii=True`
(CPython `py_encode_basestring_ascii`): `\"`, `\\`, the short control
escapes, `\uXXXX` for other controls and for everything above `0x7E`
(astral code points become a surrogate pair of `\uXXXX` escapes; lone
surrogates in the Python string are emitted as their own `\uXXXX`). -/
def jsonEsc (c : Nat) : List Nat :=
  if c = 92 then [92, 92]
  else if c = 34 then [92, 34]
  else if c = 8 then [92, 98]
  else if c = 9 then [92, 116]
  else if c = 10 then [92, 110]
  else if c = 12 then [92, 102]
  else if c = 13 then [92, 114]
  else if c < 32 then 92 :: 117 :: hex4 c
  else if c < 127 then [c]
  else if c < 65536 then 92 :: 117 :: hex4 c
  else 92 :: 117 :: hex4 (55296 + (c - 65536) / 1024) ++ 92 :: 117 :: hex4 (56320 + (c - 65536) % 1024)

/-- `json.dumps` of one string, quotes included. -/
def jsonDumpStr (s : List Nat) : List Nat := 34 :: s.flatMap jsonEsc ++ [34]

/-- Value of a hex digit (case-insensitive), as the scanner's `\uXXXX` read. -/
def hexVal (c : Nat) : Option Nat :=
  if 48 ≤ c ∧ c ≤ 57 then some (c - 48)
  else if 97 ≤ c ∧ c ≤ 102 then some (c - 87)
  else if 65 ≤ c ∧ c ≤ 70 then some (c - 55)
  else none

/-- The short escapes accepted after a backslash by the scanner. -/
def escMap (e : Nat) : Option Nat :=
  if e = 34 then some 34
  else if e = 92 then some 92
  else if e = 47 then some 47
  else if e = 98 then some 8
  else if e = 102 then some 12
  else if e = 110 then some 10
  else if e = 114 then some 13
  else if e = 116 then some 9
  else none

/-- One lexical unit of a JSON string body: a plain character (literal or
short escape) or a `\uXXXX` escape (kept apart because only adjacent
`\uXXXX` escapes form surrogate pairs). -/
inductive StrTok where
  | chr : Nat → StrTok
  | uesc : Nat → StrTok

/-- Tokenize a JSON string body up to the closing quote (CPython
`py_scanstring`, strict mode: unescaped controls are an error).  Fuelled;
every token consumes at least one character, so fuel = length + 1 never
runs out. -/
def strTokensGo : Nat → List Nat → Option (List StrTok × List Nat)
  | 0, _ => none
  | fuel + 1, s =>
    match s with
    | [] => none
    | c :: rest =>
      if c = 34 then some ([], rest)
      else if c = 92 then
        match rest with
        | [] => none
        | e :: rest2 =>
          if e = 117 then
            match rest2 with
            | h1 :: h2 :: h3 :: h4 :: rest3 =>
              match hexVal h1, hexVal h2, hexVal h3, hexVal h4 with
              | some v1, some v2, some v3, some v4 =>
                (strTokensGo fuel rest3).map
                  (fun p => (StrTok.uesc (v1 * 4096 + v2 * 256 + v3 * 16 + v4) :: p.1, p.2))
              | _, _, _, _ => none
            | _ => none
          else
            match escMap e with
            | some x => (strTokensGo fuel rest2).map (fun p => (StrTok.chr x :: p.1, p.2))
            | none => none
      else if c < 32 then none
      else (strTokensGo fuel rest).map (fun p => (StrTok.chr c :: p.1, p.2))

/-- Surrogate-pair combination over the token list: a `\uXXXX` high
surrogate immediately followed by a `\uXXXX` low surrogate becomes one code
point; any other token contributes its own code point (lone surrogates
included, as in CPython). -/
def combineSurr : List StrTok → List Nat
  | [] => []
  | StrTok.chr c :: ts => c :: combineSurr ts
  | [StrTok.uesc u] => [u]
  | StrTok.uesc u :: StrTok.chr c :: ts2 => u :: combineSurr (StrTok.chr c :: ts2)
  | StrTok.uesc u :: StrTok.uesc u2 :: ts2 =>
    if (55296 ≤ u ∧ u ≤ 56319) ∧ (56320 ≤ u2 ∧ u2 ≤ 57343) then
      (65536 + (u - 55296) * 1024 + (u2 - 56320)) :: combineSurr ts2
    else u :: combineSurr (StrTok.uesc u2 :: ts2)

/-- JSON whitespace (space, tab, LF, CR). -/
def jsonWs (c : Nat) : Bool := c = 32 ∨ c = 9 ∨ c = 10 ∨ c = 13

/-- Skip JSON whitespace. -/
def skipWs (s : List Nat) : List Nat := s.dropWhile jsonWs

/-- Decimal digit. -/
def isDigit (c : Nat) : Bool := 48 ≤ c ∧ c ≤ 57

/-- Lex one JSON number (`-? (0 | [1-9][0-9]*) (\.[0-9]+)? ([eE][+-]?[0-9]+)?`,
greedy), returning the lexeme and the rest. -/
def parseNumLex (s : List Nat) : Option (List Nat × List Nat) :=
  let signLen : Nat := match s with
    | c :: _ => if c = 45 then 1 else 0
    | [] => 0
  let s1 := s.drop signLen
  match s1 with
  | [] => none
  | c :: r =>
    if c = 48 then some (s.take (signLen + 1), r)
    else if 49 ≤ c ∧ c ≤ 57 then
      let ds := r.takeWhile isDigit
      some (s.take (signLen + 1 + ds.length), r.drop ds.length)
    else none

/-- Lex the optional fraction part (`\.[0-9]+`). -/
def parseFracLex (s : List Nat) : List Nat × List Nat :=
  match s with
  | c :: r =>
    if c = 46 then
      let ds := r.takeWhile isDigit
      if ds.length = 0 then ([], s) else (c :: ds, r.drop ds.length)
    else ([], s)
  | [] => ([], s)

/-- Lex the optional exponent part (`[eE][+-]?[0-9]+`). -/
def parseExpLex (s : List Nat) : List Nat × List Nat :=
  match s with
  | c :: r =>
    if c = 101 ∨ c = 69 then
      let signLen : Nat := match r with
        | c2 :: _ => if c2 = 43 ∨ c2 = 45 then 1 else 0
        | [] => 0
      let r1 := r.drop signLen
      let ds := r1.takeWhile isDigit
      if ds.length = 0 then ([], s)
      else (c :: (r.take signLen ++ ds), r1.drop ds.length)
    else ([], s)
  | [] => ([], s)

/-- Lex a full JSON number. -/
def parseNumber (s : List Nat) : Option (List Nat × List Nat) :=
  match parseNumLex s with
  | none => none
  | some (intPart, r1) =>
    let (fracPart, r2) := parseFracLex r1
    let (expPart, r3) := parseExpLex r2
    some (intPart ++ fracPart ++ expPart, r3)

/-- Read one JSON string body (after the opening quote): the scanner
consumes at least one character per token, so fuel = length + 1 suffices. -/
def parseStr (rest : List Nat) : Option (List StrTok × List Nat) :=
  strTokensGo (rest.length + 1) rest

mutual

/-- Parse one JSON value (CPython scanner `scan_once`), with leading
whitespace skipped.  Fuelled on nesting and sequencing; every recursive call
follows at least one consumed character, so fuel = length + 1 never runs
out (Python instead has a recursion limit on nesting, whose
`RecursionError` resource failure is outside this model). -/
def parseVal : Nat → List Nat → Option (PyJson × List Nat)
  | 0, _ => none
  | fuel + 1, s =>
    match skipWs s with
    | [] => none
    | c :: rest =>
      if c = 123 then
        match parseMembers fuel true (skipWs rest) with
        | some (ms, r) => some (PyJson.jobj ms, r)
        | none => none
      else if c = 91 then
        match parseElems fuel true (skipWs rest) with
        | some (es, r) => some (PyJson.jarr es, r)
        | none => none
      else if c = 34 then
        match parseStr rest with
        | some (ts, r) => some (PyJson.jstr (combineSurr ts), r)
        | none => none
      else if c = 116 then
        match rest with
        | 114 :: 117 :: 101 :: r => some (PyJson.jbool true, r)
        | _ => none
      else if c = 102 then
        match rest with
        | 97 :: 108 :: 115 :: 101 :: r => some (PyJson.jbool false, r)
        | _ => none
      else if c = 110 then
        match rest with
        | 117 :: 108 :: 108 :: r => some (PyJson.jnull, r)
        | _ => none
      else if c = 78 then
        match rest with
        | 97 :: 78 :: r => some (PyJson.jnum (cp "NaN"), r)
        | _ => none
      else if c = 73 then
        match rest with
        | 110 :: 102 :: 105 :: 110 :: 105 :: 116 :: 121 :: r =>
          some (PyJson.jnum (cp "Infinity"), r)
        | _ => none
      else if c = 45 then
        match rest with
        | 73 :: 110 :: 102 :: 105 :: 110 :: 105 :: 116 :: 121 :: r =>
          some (PyJson.jnum (cp "-Infinity"), r)
        | _ =>
          match parseNumber (c :: rest) with
          | some (lex, r) => some (PyJson.jnum lex, r)
          | none => none
      else
        match parseNumber (c :: rest) with
        | some (lex, r) => some (PyJson.jnum lex, r)
        | none => none

/-- Parse object members after `{` (whitespace already skipped); `first` is
true before the first member, where `}` (empty object) is allowed. -/
def parseMembers : Nat → Bool → List Nat → Option (List (List Nat × PyJson) × List Nat)
  | 0, _, _ => none
  | fuel + 1, first, s =>
    match s with
    | [] => none
    | c :: rest =>
      if c = 125 ∧ first then some ([], rest)
      else if c = 34 then
        match parseStr rest with
        | none => none
        | some (ktoks, r1) =>
          match skipWs r1 with
          | [] => none
          | c2 :: r2 =>
            if c2 = 58 then
              match parseVal fuel r2 with
              | none => none
              | some (v, r3) =>
                match skipWs r3 with
                | [] => none
                | c3 :: r4 =>
                  if c3 = 125 then some ([(combineSurr ktoks, v)], r4)
                  else if c3 = 44 then
                    match parseMembers fuel false (skipWs r4) with
                    | none => none
                    | some (ms, r5) => some ((combineSurr ktoks, v) :: ms, r5)
                  else none
            else none
      else none

/-- Parse array elements after `[` (whitespace already skipped); `first` is
true before the first element, where `]` (empty array) is allowed. -/
def parseElems : Nat → Bool → List Nat → Option (List PyJson × List Nat)
  | 0, _, _ => none
  | fuel + 1, first, s =>
    match s with
    | [] => none
    | c :: rest =>
      if c = 93 ∧ first then some ([], rest)
      else
        match parseVal fuel (c :: rest) with
        | none => none
        | some (v, r) =>
          match skipWs r with
          | [] => none
          | c2 :: r2 =>
            if c2 = 93 then some ([v], r2)
            else if c2 = 44 then
              match parseElems fuel false r2 with
              | none => none
              | some (es, r3) => some (v :: es, r3)
            else none

end

/-- Python `json.loads` on a `str`: rejects a leading BOM, parses one value,
and rejects trailing non-whitespace (`Extra data`). -/
def pyJsonLoads (s : List Nat) : Option PyJson :=
  if pyStartsWith s [65279] then none
  else
    match parseVal (s.length + 1) s with
    | some (v, rest) => if skipWs rest = [] then some v else none
    | none => none

/-! ### `ProxyData` and the token codec (`decode_proxy_data` / inline encode) -/

/-- `class ProxyData(BaseModel)` of `main.py`: `url: str`,
`origin: Optional[str] = None`, `referer: Optional[str] = None`,
`src: bool = False`. -/
structure ProxyData where
  url : List Nat
  origin : Option (List Nat) := none
  referer : Option (List Nat) := none
  src : Bool := false
deriving DecidableEq, Repr

/-- Lookup of a key in the parsed object: the Python dict built from parsed
key/value pairs keeps the last value of a duplicated key. -/
def objGetLast (fields : List (List Nat × PyJson)) (key : List Nat) : Option PyJson :=
  (fields.filter (fun kv => kv.1 == key)).getLast?.map (·.2)

/-- Pydantic validation in `ProxyData(**data)` (`none` = `ValidationError`):
`url` must be present and a string (any string — the empty string included);
`origin`/`referer` may be absent, `null`, or strings; `src` may be absent or
a boolean.  Pydantic's lax coercions of numbers/strings into `bool` (and,
under pydantic v1, of numbers into `str`) are not modelled: no claim
involves a payload exercising them, and their exact float semantics is
outside the model's scope. -/
def validateProxyData (fields : List (List Nat × PyJson)) : Option ProxyData :=
  match objGetLast fields (cp "url") with
  | some (PyJson.jstr u) =>
    let origin? : Option (Option (List Nat)) :=
      match objGetLast fields (cp "origin") with
      | none => some none
      | some PyJson.jnull => some none
      | some (PyJson.jstr s) => some (some s)
      | some _ => none
    let referer? : Option (Option (List Nat)) :=
      match objGetLast fields (cp "referer") with
      | none => some none
      | some PyJson.jnull => some none
      | some (PyJson.jstr s) => some (some s)
      | some _ => none
    let src? : Option Bool :=
      match objGetLast fields (cp "src") with
      | none => some false
      | some (PyJson.jbool b) => some b
      | some _ => none
    match origin?, referer?, src? with
    | some o, some r, some b => some ⟨u, o, r, b⟩
    | _, _, _ => none
  | _ => none

/-- The errors `decode_proxy_data` can produce.  `badBase64`, `badUnicode`,
`badJson` and `badFields` are raised as `HTTPException(400)` by its handler
clauses; `nonAsciiToken` (the plain `ValueError` raised by
`base64._bytes_from_decode_data` for a non-ASCII argument) and `notDict`
(the `TypeError` raised by `ProxyData(**data)` when `data` is not a dict)
match none of the `except` clauses and escape the handler. -/
inductive DecodeErr where
  | nonAsciiToken : DecodeErr
  | badBase64 : DecodeErr
  | badUnicode : DecodeErr
  | badJson : DecodeErr
  | notDict : DecodeErr
  | badFields : DecodeErr
deriving DecidableEq, Repr

/-- Whether the error is converted to an `HTTPException(400)` by the
`except` clauses of `decode_proxy_data`. -/
def DecodeErr.caught : DecodeErr → Bool
  | DecodeErr.badBase64 | DecodeErr.badUnicode | DecodeErr.badJson | DecodeErr.badFields => true
  | DecodeErr.nonAsciiToken | DecodeErr.notDict => false

/-- The unconditional suffix strip at the top of `decode_proxy_data`:
`if base64_data.endswith(".m3u8"): base64_data = base64_data[:-5]`. -/
def stripM3u8 (s : List Nat) : List Nat :=
  if pyEndsWith s (cp ".m3u8") then s.take (s.length - 5) else s

/-- `decode_proxy_data` of `main.py`: strip the optional `.m3u8` extension,
re-add `=` padding from the length, `base64.urlsafe_b64decode`, decode as
UTF-8, `json.loads`, then `ProxyData(**json_data)`. -/
def decode_proxy_data (base64_data : List Nat) : Except DecodeErr ProxyData :=
  let t := stripM3u8 base64_data
  let padded := t ++ List.replicate ((4 - t.length % 4) % 4) 61
  if padded.any (fun c => 128 ≤ c) then Except.error DecodeErr.nonAsciiToken
  else
    match urlsafe_b64decode padded with
    | none => Except.error DecodeErr.badBase64
    | some bytes =>
      match utf8Decode bytes with
      | none => Except.error DecodeErr.badUnicode
      | some text =>
        match pyJsonLoads text with
        | none => Except.error DecodeErr.badJson
        | some (PyJson.jobj fields) =>
          match validateProxyData fields with
          | none => Except.error DecodeErr.badFields
          | some d => Except.ok d
        | some _ => Except.error DecodeErr.notDict

/-- The serialised form `json.dumps(new_proxy_data.dict(exclude_none=True),
separators=(",", ":"))` built in `rewrite_m3u8_urls`: fields in definition
order `url`, `origin`, `referer`, `src`, the `None` optional fields omitted
entirely. -/
def jsonDumpProxy (d : ProxyData) : List Nat :=
  cp "\x7b" ++ jsonDumpStr (cp "url") ++ cp ":" ++ jsonDumpStr d.url ++
    (match d.origin with
     | some o => cp "," ++ jsonDumpStr (cp "origin") ++ cp ":" ++ jsonDumpStr o
     | none => []) ++
    (match d.referer with
     | some r => cp "," ++ jsonDumpStr (cp "referer") ++ cp ":" ++ jsonDumpStr r
     | none => []) ++
    cp "," ++ jsonDumpStr (cp "src") ++ cp ":" ++
    (if d.src then cp "true" else cp "false") ++ cp "\x7d"

/-- The token minted in `rewrite_m3u8_urls`:
`base64.urlsafe_b64encode(json_payload.encode("utf-8")).decode("utf-8").rstrip("=")`
(`none` would be an encoding exception, swallowed by the per-line `try`;
`json.dumps` output is ASCII, so encoding in fact never fails). -/
def encode_proxy_data (d : ProxyData) : Option (List Nat) :=
  (utf8Encode (jsonDumpProxy d)).map (fun bytes => rstripEq (b64encode bytes))

/-! ### URLs: `is_absolute_url`, `urlparse` (scheme/netloc), and the
RFC 3986 reference resolution behind `httpx.URL.join` / `urljoin` -/

/-- `is_absolute_url` of `main.py`: `url.startswith(("http://", "https://"))`. -/
def is_absolute_url (url : List Nat) : Bool :=
  pyStartsWith url (cp "http://") || pyStartsWith url (cp "https://")

/-- ASCII letter. -/
def isAlphaCh (c : Nat) : Bool := (65 ≤ c ∧ c ≤ 90) ∨ (97 ≤ c ∧ c ≤ 122)

/-- Characters allowed in a URL scheme after the initial letter. -/
def isSchemeChar (c : Nat) : Bool :=
  isAlphaCh c ∨ (48 ≤ c ∧ c ≤ 57) ∨ c = 43 ∨ c = 45 ∨ c = 46

/-- The scheme and netloc components of `urllib.parse.urlparse`, the only
components `rewrite_m3u8_urls` reads (for
`server_origin = f"{scheme}://{netloc}"`): a scheme is a leading
letter-headed run of scheme characters up to a `:`; the netloc follows `//`
up to the next `/`, `?` or `#`; `urlparse` lower-cases the scheme. -/
def pyUrlparseSchemeNetloc (url : List Nat) : List Nat × List Nat :=
  let pre := url.takeWhile (fun c => c ≠ 58)
  let hasScheme : Bool := pre.length < url.length &&
    !pre.isEmpty && (match pre with | c :: _ => isAlphaCh c | [] => false) &&
    pre.all isSchemeChar
  let rest := if hasScheme then url.drop (pre.length + 1) else url
  let scheme := if hasScheme then pyLower pre else []
  let netloc :=
    if pyStartsWith rest (cp "//") then
      (rest.drop 2).takeWhile (fun c => c ≠ 47 ∧ c ≠ 63 ∧ c ≠ 35)
    else []
  (scheme, netloc)

/-- The five components of RFC 3986's URI decomposition. -/
structure UrlParts where
  scheme : Option (List Nat)
  authority : Option (List Nat)
  path : List Nat
  query : Option (List Nat)
  fragment : Option (List Nat)

/-- Split at the first occurrence of `c`: part before, optional part after. -/
def splitFirst (s : List Nat) (c : Nat) : List Nat × Option (List Nat) :=
  let pre := s.takeWhile (fun x => x ≠ c)
  if pre.length = s.length then (s, none) else (pre, some (s.drop (pre.length + 1)))

/-- RFC 3986 appendix-B decomposition of a URI reference. -/
def splitUrl (s : List Nat) : UrlParts :=
  let (s1, frag) := splitFirst s 35
  let (s2, query) := splitFirst s1 63
  let pre := s2.takeWhile (fun c => c ≠ 58)
  let hasScheme : Bool := pre.length < s2.length &&
    !pre.isEmpty && (match pre with | c :: _ => isAlphaCh c | [] => false) &&
    pre.all isSchemeChar
  let scheme := if hasScheme then some pre else none
  let s3 := if hasScheme then s2.drop (pre.length + 1) else s2
  if pyStartsWith s3 (cp "//") then
    let auth := (s3.drop 2).takeWhile (fun c => c ≠ 47)
    { scheme := scheme, authority := some auth, path := (s3.drop 2).dropWhile (fun c => c ≠ 47),
      query := query, fragment := frag }
  else
    { scheme := scheme, authority := none, path := s3, query := query, fragment := frag }

/-- Remove the last path segment and its preceding `/` (RFC 3986 §5.2.4
step 2C). -/
def removeLastSeg (out : List Nat) : List Nat :=
  match out.reverse.dropWhile (fun c => c ≠ 47) with
  | 47 :: t => t.reverse
  | _ => []

/-- RFC 3986 §5.2.4 remove_dot_segments loop; every iteration shortens the
input, so fuel = length + 1 never runs out. -/
def removeDotSegmentsGo : Nat → List Nat → List Nat → List Nat
  | 0, _, out => out
  | _ + 1, [], out => out
  | fuel + 1, inp@(_ :: _), out =>
    if pyStartsWith inp (cp "../") then removeDotSegmentsGo fuel (inp.drop 3) out
    else if pyStartsWith inp (cp "./") then removeDotSegmentsGo fuel (inp.drop 2) out
    else if pyStartsWith inp (cp "/./") then removeDotSegmentsGo fuel (47 :: inp.drop 3) out
    else if inp = cp "/." then removeDotSegmentsGo fuel (cp "/") out
    else if pyStartsWith inp (cp "/../") then
      removeDotSegmentsGo fuel (47 :: inp.drop 4) (removeLastSeg out)
    else if inp = cp "/.." then removeDotSegmentsGo fuel (cp "/") (removeLastSeg out)
    else if inp = cp "." ∨ inp = cp ".." then removeDotSegmentsGo fuel [] out
    else
      match inp with
      | 47 :: rest =>
        let seg := rest.takeWhile (fun c => c ≠ 47)
        removeDotSegmentsGo fuel (rest.drop seg.length) (out ++ 47 :: seg)
      | _ =>
        let seg := inp.takeWhile (fun c => c ≠ 47)
        removeDotSegmentsGo fuel (inp.drop seg.length) (out ++ seg)

/-- RFC 3986 §5.2.4. -/
def removeDotSegments (p : List Nat) : List Nat :=
  removeDotSegmentsGo (p.length + 1) p []

/-- RFC 3986 §5.2.3 path merge. -/
def mergePaths (base : UrlParts) (refPath : List Nat) : List Nat :=
  if base.authority.isSome ∧ base.path = [] then 47 :: refPath
  else (base.path.reverse.dropWhile (fun c => c ≠ 47)).reverse ++ refPath

/-- RFC 3986 §5.3 recomposition. -/
def recompose (u : UrlParts) : List Nat :=
  (match u.scheme with | some sc => sc ++ [58] | none => []) ++
    (match u.authority with | some a => [47, 47] ++ a | none => []) ++
    u.path ++
    (match u.query with | some q => [63] ++ q | none => []) ++
    (match u.fragment with | some f => [35] ++ f | none => [])

/-- RFC 3986 §5.2.2 reference resolution (strict), the algorithm implemented
by `httpx.URL.join` — and, for the references reachable here, by the
`urllib.parse.urljoin` fallback of `resolve_url`; both code paths are the
same resolution and are modelled once.  Scheme/host normalisation performed
by `httpx.URL` is the identity on already-normalised URLs. -/
def urljoinModel (base ref : List Nat) : List Nat :=
  let B := splitUrl base
  let R := splitUrl ref
  if R.scheme.isSome then
    recompose { R with path := removeDotSegments R.path }
  else if R.authority.isSome then
    recompose { scheme := B.scheme, authority := R.authority,
                path := removeDotSegments R.path, query := R.query, fragment := R.fragment }
  else if R.path = [] then
    recompose { scheme := B.scheme, authority := B.authority, path := B.path,
                query := if R.query.isSome then R.query else B.query, fragment := R.fragment }
  else if pyStartsWith R.path (cp "/") then
    recompose { scheme := B.scheme, authority := B.authority,
                path := removeDotSegments R.path, query := R.query, fragment := R.fragment }
  else
    recompose { scheme := B.scheme, authority := B.authority,
                path := removeDotSegments (mergePaths B R.path),
                query := R.query, fragment := R.fragment }

/-- `resolve_url` of `main.py`: absolute URLs (per `is_absolute_url`) are
returned as-is, anything else is resolved against the base. -/
def resolve_url (base_url relative_url : List Nat) : List Nat :=
  if is_absolute_url relative_url then relative_url
  else urljoinModel base_url relative_url

/-! ### The playlist rewriter (`is_likely_media_url`, `rewrite_m3u8_urls`) -/

/-- The extension alternatives of the `media_extensions` regex. -/
def mediaExts : List (List Nat) :=
  [cp "ts", cp "m3u8", cp "m4s", cp "mp4", cp "key", cp "aac", cp "mp3", cp "vtt", cp "webvtt"]

/-- `is_likely_media_url` of `main.py`.  The regex
`\.(ts|m3u8|m4s|mp4|key|aac|mp3|vtt|webvtt)(\?.*)?$` under `re.search` with
`re.IGNORECASE` matches iff the line (which contains no newline, having come
from a `split("\n")`) either ends with `.ext` or contains `.ext?` for one of
the alternatives, case-insensitively: the optional group, when present,
starts with `?` and its `.*` always reaches `$` within a newline-free
string. -/
def is_likely_media_url (line : List Nat) : Bool :=
  if line.isEmpty || pyStartsWith line (cp "#") then false
  else if pyStartsWith line (cp "http://") || pyStartsWith line (cp "https://") ||
      pyStartsWith line (cp "/") then true
  else
    mediaExts.any (fun e =>
      pyEndsWith (pyLower line) (46 :: e) || pyContains (pyLower line) (46 :: e ++ [63]))

/-- The descriptor minted in `rewrite_m3u8_urls` for a discovered reference:
`ProxyData(url=absolute_url, origin=original_data.origin,
referer=original_data.referer, src=False)`. -/
def newProxyData (original_data : ProxyData) (absolute_url : List Nat) : ProxyData :=
  { url := absolute_url, origin := original_data.origin,
    referer := original_data.referer, src := false }

/-- The per-line body of the rewrite loop in `rewrite_m3u8_urls`:
comments and blank lines (after `strip()`) pass through unchanged, candidate
reference lines are replaced by `f"{server_origin}/url/{token}"` plus a
`.m3u8` hint when `".m3u8" in absolute_url.lower()`, and a failure inside
the per-line `try` (modelled: an encoding failure) passes the original line
through. -/
def rewriteLine (original_data : ProxyData) (server_origin : List Nat) (line : List Nat) :
    List Nat :=
  let stripped := pyStrip line
  if stripped.isEmpty || pyStartsWith stripped (cp "#") then line
  else if is_likely_media_url stripped then
    let absolute_url := resolve_url original_data.url stripped
    match encode_proxy_data (newProxyData original_data absolute_url) with
    | none => line
    | some tok =>
      let is_playlist := pyContains (pyLower absolute_url) (cp ".m3u8")
      server_origin ++ cp "/url/" ++ tok ++ (if is_playlist then cp ".m3u8" else [])
  else line

/-- `server_origin = f"{parsed_current.scheme}://{parsed_current.netloc}"`
(the `except` fallback in the source is dead code: `urlparse` does not raise
on `str` input). -/
def serverOriginOf (current_url : List Nat) : List Nat :=
  let p := pyUrlparseSchemeNetloc current_url
  p.1 ++ cp "://" ++ p.2

/-- `rewrite_m3u8_urls` of `main.py`: split on `"\n"`, rewrite per line,
join with `"\n"`. -/
def rewrite_m3u8_urls (content : List Nat) (original_data : ProxyData)
    (current_url : List Nat) : List Nat :=
  pyJoinNl ((pySplitCh 10 content).map
    (rewriteLine original_data (serverOriginOf current_url)))

/-! ### `determine_content_type` and the request handler `m3u8_proxy` -/

/-- `determine_content_type` of `main.py`: substring checks on the lowered
URL in fixed order, falling back to the upstream header, with
`application/octet-stream` for a missing (empty, hence falsy) header. -/
def determine_content_type (url response_content_type : List Nat) : List Nat :=
  let url_lower := pyLower url
  if pyContains url_lower (cp ".m3u8") then cp "application/vnd.apple.mpegurl"
  else if pyContains url_lower (cp ".ts") then cp "video/mp2t"
  else if pyContains url_lower (cp ".mp4") then cp "video/mp4"
  else if pyContains url_lower (cp ".webvtt") || pyContains url_lower (cp ".vtt") then cp "text/vtt"
  else if pyContains url_lower (cp ".m4s") then cp "video/iso.segment"
  else if response_content_type.isEmpty then cp "application/octet-stream"
  else response_content_type

/-- The upstream response as seen by the handler: the `content-type` header
(`none` when absent), the raw body bytes (`response.content`), the decoded
body text (`response.text`; the charset decoding relating the two is done by
the HTTP client, an external collaborator), and the three headers the
handler passes through. -/
structure UpstreamResponse where
  contentTypeHeader : Option (List Nat)
  content : List Nat
  text : List Nat
  contentLength : Option (List Nat)
  lastModified : Option (List Nat)
  etag : Option (List Nat)

/-- Result of the upstream `client.get` plus `raise_for_status`. -/
inductive FetchResult where
  | success : UpstreamResponse → FetchResult
  | statusError : Nat → FetchResult
  | timeout : FetchResult
  | requestError : FetchResult

/-- A stored cache entry: `(content_bytes, content_type, response_headers)`. -/
def CacheEntry : Type := List Nat × List Nat × List (List Nat × List Nat)

/-- Observable outcome of one request to `GET /url/{base64_data}`:
an `HTTPException` with a status, an exception that no handler catches
(surfacing as the framework's 500), or a response (body bytes, media type,
headers). -/
inductive HandlerOutcome where
  | clientError : Nat → HandlerOutcome
  | uncaughtError : HandlerOutcome
  | response : List Nat → List Nat → List (List Nat × List Nat) → HandlerOutcome

/-- The upstream request headers built by the handler: the fixed browser-like
set, plus `Origin`/`Referer` when the corresponding descriptor field is
truthy (present and non-empty). -/
def buildHeaders (d : ProxyData) : List (List Nat × List Nat) :=
  [(cp "User-Agent",
    cp "Mozilla/5.0 (X11; Ubuntu; Linux x86_64; rv:143.0) Gecko/20100101 Firefox/143.0"),
   (cp "Accept", cp "*/*"),
   (cp "Accept-Language", cp "en-US,en;q=0.5"),
   (cp "Connection", cp "keep-alive"),
   (cp "Sec-Fetch-Dest", cp "empty"),
   (cp "Sec-Fetch-Mode", cp "cors"),
   (cp "Sec-Fetch-Site", cp "cross-site")] ++
  (match d.origin with
   | some o => if o.isEmpty then [] else [(cp "Origin", o)]
   | none => []) ++
  (match d.referer with
   | some r => if r.isEmpty then [] else [(cp "Referer", r)]
   | none => [])

/-- The fixed response headers set by the handler before returning. -/
def baseRespHeaders : List (List Nat × List Nat) :=
  [(cp "Cache-Control", cp "public, max-age=3600"),
   (cp "Access-Control-Allow-Origin", cp "*"),
   (cp "Access-Control-Expose-Headers", cp "*")]

/-- The upstream headers passed through when the body was not rewritten:
`Content-Length`, `Last-Modified`, `ETag`, each if present upstream. -/
def passthroughHeaders (resp : UpstreamResponse) : List (List Nat × List Nat) :=
  (match resp.contentLength with
   | some v => [(cp "Content-Length", v)] | none => []) ++
  (match resp.lastModified with
   | some v => [(cp "Last-Modified", v)] | none => []) ++
  (match resp.etag with
   | some v => [(cp "ETag", v)] | none => [])

/-- `m3u8_proxy` of `main.py` as a pure function of the path parameter, the
request URL, and oracles for the two effects (cache lookup and upstream
fetch).  The returned pair is the outcome plus the cache write performed
(`none` when `cache.set` is never reached). -/
def m3u8_proxy (base64_data request_url : List Nat)
    (cache : List Nat → Option CacheEntry)
    (fetch : List Nat → List (List Nat × List Nat) → FetchResult) :
    HandlerOutcome × Option (List Nat × CacheEntry) :=
  match decode_proxy_data base64_data with
  | Except.error e =>
    (if e.caught then HandlerOutcome.clientError 400 else HandlerOutcome.uncaughtError, none)
  | Except.ok proxy_data =>
    let cache_key := base64_data
    match cache cache_key with
    | some (content, content_type, headers) =>
      (HandlerOutcome.response content content_type headers, none)
    | none =>
      match fetch proxy_data.url (buildHeaders proxy_data) with
      | FetchResult.statusError code => (HandlerOutcome.clientError code, none)
      | FetchResult.timeout => (HandlerOutcome.clientError 504, none)
      | FetchResult.requestError => (HandlerOutcome.clientError 502, none)
      | FetchResult.success resp =>
        let content_type :=
          determine_content_type proxy_data.url (resp.contentTypeHeader.getD [])
        let is_m3u8 := pyContains (pyLower proxy_data.url) (cp ".m3u8") ||
          content_type == cp "application/vnd.apple.mpegurl"
        let will_modify := proxy_data.src && is_m3u8
        match (if will_modify then
            utf8Encode (rewrite_m3u8_urls resp.text proxy_data request_url)
          else some resp.content) with
        | none => (HandlerOutcome.uncaughtError, none)
        | some content_bytes =>
          let response_headers := baseRespHeaders ++
            (if will_modify then [] else passthroughHeaders resp)
          (HandlerOutcome.response content_bytes content_type response_headers,
           some (cache_key, (content_bytes, content_type, response_headers)))

/-! ### Round-trip of the string codec -/

/-- Well-formed Python string: all code points at most `0x10FFFF` (no such
string can contain larger values; lone surrogates are allowed). -/
def pyStrWF (s : List Nat) : Bool := s.all (fun c => c < 1114112)

/-- No high surrogate immediately followed by a low surrogate.  A pair of
adjacent code points in those ranges is re-combined into one astral code
point by the scanner, which is the one way `json.loads ∘ json.dumps` is not
the identity on Python strings. -/
def noAdjSurrPair : List Nat → Bool
  | c1 :: c2 :: rest =>
    !(decide ((55296 ≤ c1 ∧ c1 ≤ 56319) ∧ (56320 ≤ c2 ∧ c2 ≤ 57343))) &&
      noAdjSurrPair (c2 :: rest)
  | _ => true

/-- The tokens the scanner produces for the escape of one code point. -/
def tokOf (c : Nat) : List StrTok :=
  if c = 92 ∨ c = 34 ∨ c = 8 ∨ c = 9 ∨ c = 10 ∨ c = 12 ∨ c = 13 then [StrTok.chr c]
  else if c < 32 then [StrTok.uesc c]
  else if c < 127 then [StrTok.chr c]
  else if c < 65536 then [StrTok.uesc c]
  else [StrTok.uesc (55296 + (c - 65536) / 1024), StrTok.uesc (56320 + (c - 65536) % 1024)]

/-- Hex digits round-trip. -/
theorem hexVal_hexDig : ∀ x : Nat, x < 16 → hexVal (hexDig x) = some x := by decide

/-- One tokenizer step across a `\uXXXX` escape. -/
theorem strTokensGo_uesc (fuel v : Nat) (hv : v < 65536) (rest : List Nat) :
    strTokensGo (fuel + 1) (92 :: 117 :: hex4 v ++ rest) =
      (strTokensGo fuel rest).map (fun p => (StrTok.uesc v :: p.1, p.2)) := by
  have h1 : v / 4096 % 16 < 16 := by omega
  have h2 : v / 256 % 16 < 16 := by omega
  have h3 : v / 16 % 16 < 16 := by omega
  have h4 : v % 16 < 16 := by omega
  simp only [strTokensGo, hex4, List.cons_append, List.nil_append,
    hexVal_hexDig _ h1, hexVal_hexDig _ h2, hexVal_hexDig _ h3, hexVal_hexDig _ h4]
  norm_num
  have : v / 4096 % 16 * 4096 + v / 256 % 16 * 256 + v / 16 % 16 * 16 + v % 16 = v := by
    omega
  rw [this]

/-- One tokenizer step across a literal (unescaped) character. -/
theorem strTokensGo_chr_lit (fuel c : Nat) (rest : List Nat)
    (h32 : 32 ≤ c) (h127 : c < 127) (hq : c ≠ 34) (hb : c ≠ 92) :
    strTokensGo (fuel + 1) (c :: rest) =
      (strTokensGo fuel rest).map (fun p => (StrTok.chr c :: p.1, p.2)) := by
  simp only [strTokensGo]
  rw [if_neg hq, if_neg hb, if_neg (by omega)]

/-- One tokenizer step across a two-character short escape. -/
theorem strTokensGo_esc (fuel e x : Nat) (rest : List Nat)
    (hx : escMap e = some x) (he : e ≠ 117) :
    strTokensGo (fuel + 1) (92 :: e :: rest) =
      (strTokensGo fuel rest).map (fun p => (StrTok.chr x :: p.1, p.2)) := by
  simp only [strTokensGo]
  simp [he, hx]

/-- Tokenizing the escaped body of a well-formed string (with the closing
quote appended) recovers its token list and the input after the quote. -/
theorem strTokens_escBody (s : List Nat) : ∀ (fuel : Nat) (rest : List Nat),
    (s.flatMap jsonEsc).length + 1 ≤ fuel → pyStrWF s = true →
    strTokensGo fuel (s.flatMap jsonEsc ++ 34 :: rest) = some (s.flatMap tokOf, rest) := by
  induction s with
  | nil =>
    intro fuel rest hf _
    cases fuel with
    | zero => omega
    | succ f => simp [strTokensGo]
  | cons c s' ih =>
    intro fuel rest hf hwf
    simp only [pyStrWF, List.all_cons, Bool.and_eq_true, decide_eq_true_eq] at hwf
    obtain ⟨hc, hwf'⟩ := hwf
    have hf' : (jsonEsc c).length + (s'.flatMap jsonEsc).length + 1 ≤ fuel := by
      rw [List.flatMap_cons, List.length_append] at hf
      omega
    have hwfs : pyStrWF s' = true := by simp [pyStrWF, hwf']
    rw [List.flatMap_cons, List.flatMap_cons]
    by_cases hspec : c = 92 ∨ c = 34 ∨ c = 8 ∨ c = 9 ∨ c = 10 ∨ c = 12 ∨ c = 13
    · have hesc : ∃ e, jsonEsc c = [92, e] ∧ escMap e = some c ∧ e ≠ 117 := by
        rcases hspec with rfl | rfl | rfl | rfl | rfl | rfl | rfl
        · exact ⟨92, rfl, rfl, by omega⟩
        · exact ⟨34, rfl, rfl, by omega⟩
        · exact ⟨98, rfl, rfl, by omega⟩
        · exact ⟨116, rfl, rfl, by omega⟩
        · exact ⟨110, rfl, rfl, by omega⟩
        · exact ⟨102, rfl, rfl, by omega⟩
        · exact ⟨114, rfl, rfl, by omega⟩
      obtain ⟨e, he, hm, hu⟩ := hesc
      rw [he] at hf'
      simp only [List.length_cons, List.length_nil] at hf'
      have htok : tokOf c = [StrTok.chr c] := by
        unfold tokOf
        rw [if_pos hspec]
      rw [he, htok]
      obtain ⟨f, rfl⟩ : ∃ f, fuel = f + 1 := ⟨fuel - 1, by omega⟩
      have hshape : ([92, e] ++ s'.flatMap jsonEsc) ++ 34 :: rest =
          92 :: e :: (s'.flatMap jsonEsc ++ 34 :: rest) := by simp
      rw [hshape, strTokensGo_esc f e c _ hm hu, ih f rest (by omega) hwfs]
      simp
    · push_neg at hspec
      obtain ⟨h92, h34, h8, h9, h10, h12, h13⟩ := hspec
      by_cases hlow : c < 32
      · have he : jsonEsc c = 92 :: 117 :: hex4 c := by
          unfold jsonEsc
          rw [if_neg h92, if_neg h34, if_neg h8, if_neg h9, if_neg h10, if_neg h12,
            if_neg h13, if_pos hlow]
        rw [he] at hf'
        simp only [hex4, List.length_cons, List.length_nil] at hf'
        have htok : tokOf c = [StrTok.uesc c] := by
          unfold tokOf
          rw [if_neg (by tauto), if_pos hlow]
        rw [he, htok]
        obtain ⟨f, rfl⟩ : ∃ f, fuel = f + 1 := ⟨fuel - 1, by omega⟩
        have hshape : ((92 :: 117 :: hex4 c) ++ s'.flatMap jsonEsc) ++ 34 :: rest =
            92 :: 117 :: hex4 c ++ (s'.flatMap jsonEsc ++ 34 :: rest) := by simp
        rw [hshape, strTokensGo_uesc f c (by omega), ih f rest (by omega) hwfs]
        simp
      · by_cases hascii : c < 127
        · have he : jsonEsc c = [c] := by
            unfold jsonEsc
            rw [if_neg h92, if_neg h34, if_neg h8, if_neg h9, if_neg h10, if_neg h12,
              if_neg h13, if_neg hlow, if_pos hascii]
          rw [he] at hf'
          simp only [List.length_cons, List.length_nil] at hf'
          have htok : tokOf c = [StrTok.chr c] := by
            unfold tokOf
            rw [if_neg (by tauto), if_neg hlow, if_pos hascii]
          rw [he, htok]
          obtain ⟨f, rfl⟩ : ∃ f, fuel = f + 1 := ⟨fuel - 1, by omega⟩
          have hshape : ([c] ++ s'.flatMap jsonEsc) ++ 34 :: rest =
              c :: (s'.flatMap jsonEsc ++ 34 :: rest) := by simp
          rw [hshape, strTokensGo_chr_lit f c _ (by omega) hascii h34 h92,
            ih f rest (by omega) hwfs]
          simp
        · by_cases hbmp : c < 65536
          · have he : jsonEsc c = 92 :: 117 :: hex4 c := by
              unfold jsonEsc
              rw [if_neg h92, if_neg h34, if_neg h8, if_neg h9, if_neg h10, if_neg h12,
                if_neg h13, if_neg hlow, if_neg hascii, if_pos hbmp]
            rw [he] at hf'
            simp only [hex4, List.length_cons, List.length_nil] at hf'
            have htok : tokOf c = [StrTok.uesc c] := by
              unfold tokOf
              rw [if_neg (by tauto), if_neg hlow, if_neg hascii, if_pos hbmp]
            rw [he, htok]
            obtain ⟨f, rfl⟩ : ∃ f, fuel = f + 1 := ⟨fuel - 1, by omega⟩
            have hshape : ((92 :: 117 :: hex4 c) ++ s'.flatMap jsonEsc) ++ 34 :: rest =
                92 :: 117 :: hex4 c ++ (s'.flatMap jsonEsc ++ 34 :: rest) := by simp
            rw [hshape, strTokensGo_uesc f c hbmp, ih f rest (by omega) hwfs]
            simp
          · have he : jsonEsc c = 92 :: 117 :: hex4 (55296 + (c - 65536) / 1024) ++
                92 :: 117 :: hex4 (56320 + (c - 65536) % 1024) := by
              unfold jsonEsc
              rw [if_neg h92, if_neg h34, if_neg h8, if_neg h9, if_neg h10, if_neg h12,
                if_neg h13, if_neg hlow, if_neg hascii, if_neg hbmp]
            rw [he] at hf'
            simp only [hex4, List.cons_append, List.nil_append,
              List.length_cons, List.length_nil] at hf'
            have htok : tokOf c = [StrTok.uesc (55296 + (c - 65536) / 1024),
                StrTok.uesc (56320 + (c - 65536) % 1024)] := by
              unfold tokOf
              rw [if_neg (by tauto), if_neg hlow, if_neg hascii, if_neg hbmp]
            rw [he, htok]
            obtain ⟨f, rfl⟩ : ∃ f, fuel = f + 2 := ⟨fuel - 2, by omega⟩
            have hhi : 55296 + (c - 65536) / 1024 < 65536 := by
              have : (c - 65536) / 1024 < 1024 := by omega
              omega
            have hlo : 56320 + (c - 65536) % 1024 < 65536 := by omega
            have hshape : ((92 :: 117 :: hex4 (55296 + (c - 65536) / 1024) ++
                  92 :: 117 :: hex4 (56320 + (c - 65536) % 1024)) ++ s'.flatMap jsonEsc) ++
                34 :: rest =
                92 :: 117 :: hex4 (55296 + (c - 65536) / 1024) ++
                  (92 :: 117 :: hex4 (56320 + (c - 65536) % 1024) ++
                    (s'.flatMap jsonEsc ++ 34 :: rest)) := by simp
            rw [hshape]
            rw [show f + 2 = (f + 1) + 1 from rfl, strTokensGo_uesc (f + 1) _ hhi,
              strTokensGo_uesc f _ hlo, ih f rest (by omega) hwfs]
            simp

/-- The head of a token list is not a low-surrogate `\uXXXX` escape. -/
def tokHeadNotLo : List StrTok → Prop
  | StrTok.uesc u :: _ => ¬(56320 ≤ u ∧ u ≤ 57343)
  | _ => True

/-- A `\uXXXX` token outside the high-surrogate range never combines. -/
theorem combineSurr_uesc_not_hi (u : Nat) (ts : List StrTok)
    (h : ¬(55296 ≤ u ∧ u ≤ 56319)) :
    combineSurr (StrTok.uesc u :: ts) = u :: combineSurr ts := by
  cases ts with
  | nil => rfl
  | cons t ts2 =>
    cases t with
    | chr c => rfl
    | uesc u2 =>
      simp only [combineSurr]
      rw [if_neg (fun hh => h hh.1)]

/-- A high-surrogate `\uXXXX` token followed by anything but a low-surrogate
`\uXXXX` token stays lone. -/
theorem combineSurr_uesc_hi (u : Nat) (ts : List StrTok)
    (hu : 55296 ≤ u ∧ u ≤ 56319) (hts : tokHeadNotLo ts) :
    combineSurr (StrTok.uesc u :: ts) = u :: combineSurr ts := by
  cases ts with
  | nil => rfl
  | cons t ts2 =>
    cases t with
    | chr c => rfl
    | uesc u2 =>
      simp only [tokHeadNotLo] at hts
      simp only [combineSurr]
      rw [if_neg (fun hh => hts hh.2)]

/-- The first token of `tokOf c2` (for a value possible in a Python string)
is a low-surrogate `\uXXXX` escape only if `c2` itself is a low surrogate. -/
theorem tokOf_headNotLo (c2 : Nat) (ts : List StrTok) (hval : c2 < 1114112)
    (h : ¬(56320 ≤ c2 ∧ c2 ≤ 57343)) : tokHeadNotLo (tokOf c2 ++ ts) := by
  unfold tokOf
  by_cases hspec : c2 = 92 ∨ c2 = 34 ∨ c2 = 8 ∨ c2 = 9 ∨ c2 = 10 ∨ c2 = 12 ∨ c2 = 13
  · rw [if_pos hspec]
    simp [tokHeadNotLo]
  · rw [if_neg hspec]
    by_cases hlow : c2 < 32
    · rw [if_pos hlow]
      have : ¬(56320 ≤ c2 ∧ c2 ≤ 57343) := by omega
      simpa [tokHeadNotLo] using this
    · rw [if_neg hlow]
      by_cases hascii : c2 < 127
      · rw [if_pos hascii]
        simp [tokHeadNotLo]
      · rw [if_neg hascii]
        by_cases hbmp : c2 < 65536
        · rw [if_pos hbmp]
          simpa [tokHeadNotLo] using h
        · rw [if_neg hbmp]
          have hdiv : (c2 - 65536) / 1024 < 1024 := by omega
          have : ¬(56320 ≤ 55296 + (c2 - 65536) / 1024 ∧
              55296 + (c2 - 65536) / 1024 ≤ 57343) := by omega
          simpa [tokHeadNotLo] using this

/-- `noAdjSurrPair` restricted to the tail. -/
theorem noAdjSurrPair_tail (c : Nat) (s : List Nat)
    (h : noAdjSurrPair (c :: s) = true) : noAdjSurrPair s = true := by
  cases s with
  | nil => rfl
  | cons c2 rest =>
    simp only [noAdjSurrPair, Bool.and_eq_true] at h
    exact h.2

/-- The head condition of `noAdjSurrPair`. -/
theorem noAdjSurrPair_head (c c2 : Nat) (rest : List Nat)
    (h : noAdjSurrPair (c :: c2 :: rest) = true) :
    ¬((55296 ≤ c ∧ c ≤ 56319) ∧ (56320 ≤ c2 ∧ c2 ≤ 57343)) := by
  simp only [noAdjSurrPair, Bool.and_eq_true, Bool.not_eq_true',
    decide_eq_false_iff_not] at h
  exact h.1

/-- Combining the tokens of a well-formed string with no adjacent
surrogate pair recovers the string. -/
theorem combineSurr_tokOf (s : List Nat) (hwf : pyStrWF s = true)
    (hadj : noAdjSurrPair s = true) : combineSurr (s.flatMap tokOf) = s := by
  induction s with
  | nil => rfl
  | cons c s' ih =>
    simp only [pyStrWF, List.all_cons, Bool.and_eq_true, decide_eq_true_eq] at hwf
    obtain ⟨hc, hwf'⟩ := hwf
    have ih' := ih (by simp [pyStrWF, hwf']) (noAdjSurrPair_tail c s' hadj)
    rw [List.flatMap_cons]
    by_cases hspec : c = 92 ∨ c = 34 ∨ c = 8 ∨ c = 9 ∨ c = 10 ∨ c = 12 ∨ c = 13
    · have htok : tokOf c = [StrTok.chr c] := by
        unfold tokOf
        rw [if_pos hspec]
      rw [htok, List.cons_append, List.nil_append, combineSurr, ih']
    · push_neg at hspec
      by_cases hlow : c < 32
      · have htok : tokOf c = [StrTok.uesc c] := by
          unfold tokOf
          rw [if_neg (by tauto), if_pos hlow]
        rw [htok, List.cons_append, List.nil_append,
          combineSurr_uesc_not_hi c _ (by omega), ih']
      · by_cases hascii : c < 127
        · have htok : tokOf c = [StrTok.chr c] := by
            unfold tokOf
            rw [if_neg (by tauto), if_neg hlow, if_pos hascii]
          rw [htok, List.cons_append, List.nil_append, combineSurr, ih']
        · by_cases hbmp : c < 65536
          · have htok : tokOf c = [StrTok.uesc c] := by
              unfold tokOf
              rw [if_neg (by tauto), if_neg hlow, if_neg hascii, if_pos hbmp]
            rw [htok, List.cons_append, List.nil_append]
            by_cases hhi : 55296 ≤ c ∧ c ≤ 56319
            · have hnext : tokHeadNotLo (s'.flatMap tokOf) := by
                cases s' with
                | nil => simp [tokHeadNotLo]
                | cons c2 rest =>
                  have hc2 : c2 < 1114112 := by
                    simp only [List.all_cons, Bool.and_eq_true, decide_eq_true_eq] at hwf'
                    exact hwf'.1
                  rw [List.flatMap_cons]
                  refine tokOf_headNotLo c2 _ hc2 ?_
                  intro hlo2
                  exact noAdjSurrPair_head c c2 rest hadj ⟨hhi, hlo2⟩
              rw [combineSurr_uesc_hi c _ hhi hnext, ih']
            · rw [combineSurr_uesc_not_hi c _ hhi, ih']
          · have htok : tokOf c = [StrTok.uesc (55296 + (c - 65536) / 1024),
                StrTok.uesc (56320 + (c - 65536) % 1024)] := by
              unfold tokOf
              rw [if_neg (by tauto), if_neg hlow, if_neg hascii, if_neg hbmp]
            have hdiv : (c - 65536) / 1024 < 1024 := by omega
            rw [htok, List.cons_append, List.cons_append, List.nil_append,
              combineSurr.eq_5]
            rw [if_pos (by omega)]
            rw [ih']
            simp only [List.cons.injEq, and_true]
            omega

/-! ### Parsing back the serialised descriptor -/

/-- Well-formedness of one JSON value appearing in a serialised descriptor. -/
def valWF : PyJson → Bool
  | PyJson.jstr v => pyStrWF v && noAdjSurrPair v
  | PyJson.jbool _ => true
  | _ => false

/-- Well-formedness of one serialised object member. -/
def fieldWF (f : List Nat × PyJson) : Bool :=
  pyStrWF f.1 && noAdjSurrPair f.1 && valWF f.2

/-- Serialisation of one member value as `json.dumps` writes it. -/
def dumpVal : PyJson → List Nat
  | PyJson.jstr v => jsonDumpStr v
  | PyJson.jbool b => if b then cp "true" else cp "false"
  | _ => []

/-- Serialisation of one `key:value` member. -/
def dumpField (f : List Nat × PyJson) : List Nat := jsonDumpStr f.1 ++ 58 :: dumpVal f.2

/-- Comma-separated member list. -/
def dumpFields : List (List Nat × PyJson) → List Nat
  | [] => []
  | [f] => dumpField f
  | f :: fs => dumpField f ++ 44 :: dumpFields fs

/-- `skipWs` over a non-whitespace head. -/
theorem skipWs_cons_not (c : Nat) (r : List Nat) (h : jsonWs c = false) :
    skipWs (c :: r) = c :: r := by
  simp [skipWs, List.dropWhile_cons, h]

/-- `parseStr` on an escaped body plus closing quote recovers the tokens. -/
theorem parseStr_dump (s : List Nat) (rest : List Nat) (hwf : pyStrWF s = true) :
    parseStr (s.flatMap jsonEsc ++ 34 :: rest) = some (s.flatMap tokOf, rest) := by
  unfold parseStr
  exact strTokens_escBody s _ rest (by simp) hwf

/-- Parsing a serialised member value returns that value. -/
theorem parseVal_dumpVal (v : PyJson) (hv : valWF v = true) (fuel : Nat) (rest : List Nat) :
    parseVal (fuel + 1) (dumpVal v ++ rest) = some (v, rest) := by
  cases v with
  | jstr s =>
    simp only [valWF, Bool.and_eq_true] at hv
    have hshape : dumpVal (PyJson.jstr s) ++ rest =
        34 :: (s.flatMap jsonEsc ++ 34 :: rest) := by
      simp [dumpVal, jsonDumpStr]
    have htok := parseStr_dump s rest hv.1
    rw [hshape]
    simp [parseVal, skipWs, jsonWs, htok, combineSurr_tokOf s hv.1 hv.2]
  | jbool b =>
    cases b with
    | false =>
      have hshape : dumpVal (PyJson.jbool false) ++ rest =
          102 :: 97 :: 108 :: 115 :: 101 :: rest := by simp [dumpVal, cp]
      rw [hshape]
      simp [parseVal, skipWs, jsonWs]
    | true =>
      have hshape : dumpVal (PyJson.jbool true) ++ rest =
          116 :: 114 :: 117 :: 101 :: rest := by simp [dumpVal, cp]
      rw [hshape]
      simp [parseVal, skipWs, jsonWs]
  | jnull => simp [valWF] at hv
  | jnum l => simp [valWF] at hv
  | jarr l => simp [valWF] at hv
  | jobj l => simp [valWF] at hv

/-- `skipWs` in front of a serialised member list. -/
theorem skipWs_dumpFields (f : List Nat × PyJson) (fs : List (List Nat × PyJson))
    (rest : List Nat) :
    skipWs (dumpFields (f :: fs) ++ rest) = dumpFields (f :: fs) ++ rest := by
  obtain ⟨k, v⟩ := f
  cases fs with
  | nil =>
    have hshape : dumpFields [(k, v)] ++ rest =
        34 :: (k.flatMap jsonEsc ++ 34 :: (58 :: (dumpVal v ++ rest))) := by
      simp [dumpFields, dumpField, jsonDumpStr]
    rw [hshape, skipWs_cons_not 34 _ (by decide)]
  | cons f2 fs2 =>
    have hshape : dumpFields ((k, v) :: f2 :: fs2) ++ rest =
        34 :: (k.flatMap jsonEsc ++ 34 ::
          (58 :: (dumpVal v ++ (44 :: (dumpFields (f2 :: fs2) ++ rest))))) := by
      simp [dumpFields, dumpField, jsonDumpStr]
    rw [hshape, skipWs_cons_not 34 _ (by decide)]

/-- Parsing a serialised member list (with the closing brace appended)
recovers the members. -/
theorem parseMembers_dump : ∀ (fields : List (List Nat × PyJson)) (fuel : Nat) (flag : Bool)
    (rest : List Nat), (∀ f ∈ fields, fieldWF f = true) → 2 * fields.length + 1 ≤ fuel →
    fields ≠ [] →
    parseMembers fuel flag (dumpFields fields ++ 125 :: rest) = some (fields, rest) := by
  intro fields
  induction fields with
  | nil => intro fuel flag rest _ _ hne; exact absurd rfl hne
  | cons f fs ih =>
    intro fuel flag rest hwf hfuel _
    obtain ⟨k, v⟩ := f
    have hkv := hwf (k, v) (by simp)
    simp only [fieldWF, Bool.and_eq_true] at hkv
    obtain ⟨⟨hk1, hk2⟩, hv⟩ := hkv
    obtain ⟨g, rfl⟩ : ∃ g, fuel = g + 1 := ⟨fuel - 1, by omega⟩
    obtain ⟨g', rfl⟩ : ∃ g', g = g' + 1 := ⟨g - 1, by simp at hfuel; omega⟩
    cases fs with
    | nil =>
      have hshape : dumpFields [(k, v)] ++ 125 :: rest =
          34 :: (k.flatMap jsonEsc ++ 34 :: (58 :: (dumpVal v ++ 125 :: rest))) := by
        simp [dumpFields, dumpField, jsonDumpStr]
      have htok := parseStr_dump k (58 :: (dumpVal v ++ 125 :: rest)) hk1
      have hval := parseVal_dumpVal v hv g' (125 :: rest)
      have hs58 : ∀ r : List Nat, skipWs (58 :: r) = 58 :: r :=
        fun r => skipWs_cons_not 58 r (by decide)
      have hs125 : ∀ r : List Nat, skipWs (125 :: r) = 125 :: r :=
        fun r => skipWs_cons_not 125 r (by decide)
      rw [hshape, parseMembers]
      simp [htok, hval, hs58, hs125, combineSurr_tokOf k hk1 hk2]
    | cons f2 fs2 =>
      have hshape : dumpFields ((k, v) :: f2 :: fs2) ++ 125 :: rest =
          34 :: (k.flatMap jsonEsc ++ 34 ::
            (58 :: (dumpVal v ++ 44 :: (dumpFields (f2 :: fs2) ++ 125 :: rest)))) := by
        simp [dumpFields, dumpField, jsonDumpStr]
      have htok := parseStr_dump k
        (58 :: (dumpVal v ++ 44 :: (dumpFields (f2 :: fs2) ++ 125 :: rest))) hk1
      have hval := parseVal_dumpVal v hv g' (44 :: (dumpFields (f2 :: fs2) ++ 125 :: rest))
      have hih := ih (g' + 1) false rest (fun x hx => hwf x (by simp [hx]))
        (by simp at hfuel ⊢; omega) (by simp)
      have hskip := skipWs_dumpFields f2 fs2 (125 :: rest)
      have hs58 : ∀ r : List Nat, skipWs (58 :: r) = 58 :: r :=
        fun r => skipWs_cons_not 58 r (by decide)
      have hs44 : ∀ r : List Nat, skipWs (44 :: r) = 44 :: r :=
        fun r => skipWs_cons_not 44 r (by decide)
      rw [hshape, parseMembers]
      simp [htok, hval, hs58, hs44, hskip, hih, combineSurr_tokOf k hk1 hk2]

/-- A well-formed Python string with no adjacent surrogate pair. -/
def pyStrOK (s : List Nat) : Bool := pyStrWF s && noAdjSurrPair s

/-- Well-formedness of a descriptor's string fields.  Every descriptor whose
fields are real Unicode text (in particular every URL) satisfies it; it
excludes only code points beyond `0x10FFFF` (impossible in Python) and a
high surrogate immediately followed by a low surrogate (possible in a
Python `str`, but re-combined by `json.loads` — see the `C1`
counterexample). -/
def ProxyData.wf (d : ProxyData) : Bool :=
  pyStrOK d.url &&
    (match d.origin with | some o => pyStrOK o | none => true) &&
    (match d.referer with | some r => pyStrOK r | none => true)

/-- The parsed-object fields of a serialised descriptor, in serialisation
order. -/
def objFieldsOf (d : ProxyData) : List (List Nat × PyJson) :=
  (cp "url", PyJson.jstr d.url) ::
    ((match d.origin with | some o => [(cp "origin", PyJson.jstr o)] | none => []) ++
      (match d.referer with | some r => [(cp "referer", PyJson.jstr r)] | none => []) ++
      [(cp "src", PyJson.jbool d.src)])

/-- The serialised descriptor is the brace-wrapped member list of its
fields. -/
theorem jsonDumpProxy_eq (d : ProxyData) :
    jsonDumpProxy d = 123 :: (dumpFields (objFieldsOf d) ++ [125]) := by
  have hbrace : cp "\x7b" = [123] := rfl
  have hcolon : cp ":" = [58] := rfl
  have hcomma : cp "," = [44] := rfl
  have hrbrace : cp "\x7d" = [125] := rfl
  obtain ⟨u, o, r, b⟩ := d
  cases o <;> cases r <;>
    simp [jsonDumpProxy, objFieldsOf, dumpFields, dumpField, dumpVal,
      hbrace, hcolon, hcomma, hrbrace]

/-- Each field of a well-formed descriptor is a well-formed member. -/
theorem objFieldsOf_wf (d : ProxyData) (hwf : d.wf = true) :
    ∀ f ∈ objFieldsOf d, fieldWF f = true := by
  simp only [ProxyData.wf, Bool.and_eq_true] at hwf
  obtain ⟨⟨hu, ho⟩, hr⟩ := hwf
  have hkurl : pyStrOK (cp "url") = true := by decide
  have hkorigin : pyStrOK (cp "origin") = true := by decide
  have hkreferer : pyStrOK (cp "referer") = true := by decide
  have hksrc : pyStrOK (cp "src") = true := by decide
  simp only [pyStrOK, Bool.and_eq_true] at hkurl hkorigin hkreferer hksrc hu
  intro f hf
  obtain ⟨u, o, r, b⟩ := d
  cases o with
  | none =>
    cases r with
    | none =>
      simp only [objFieldsOf, List.nil_append, List.mem_cons, List.mem_singleton, List.not_mem_nil, or_false] at hf
      rcases hf with rfl | rfl
      · simp [fieldWF, valWF, pyStrOK, hkurl.1, hkurl.2, hu.1, hu.2]
      · simp [fieldWF, valWF, pyStrOK, hksrc.1, hksrc.2]
    | some rv =>
      simp only [pyStrOK, Bool.and_eq_true] at hr
      simp only [objFieldsOf, List.nil_append, List.mem_cons, List.mem_append,
        List.mem_singleton, List.not_mem_nil, or_false] at hf
      rcases hf with rfl | rfl | rfl
      · simp [fieldWF, valWF, pyStrOK, hkurl.1, hkurl.2, hu.1, hu.2]
      · simp [fieldWF, valWF, pyStrOK, hkreferer.1, hkreferer.2, hr.1, hr.2]
      · simp [fieldWF, valWF, pyStrOK, hksrc.1, hksrc.2]
  | some ov =>
    simp only [pyStrOK, Bool.and_eq_true] at ho
    cases r with
    | none =>
      simp only [objFieldsOf, List.nil_append, List.mem_cons, List.mem_append,
        List.mem_singleton, List.not_mem_nil, or_false] at hf
      rcases hf with rfl | rfl | rfl
      · simp [fieldWF, valWF, pyStrOK, hkurl.1, hkurl.2, hu.1, hu.2]
      · simp [fieldWF, valWF, pyStrOK, hkorigin.1, hkorigin.2, ho.1, ho.2]
      · simp [fieldWF, valWF, pyStrOK, hksrc.1, hksrc.2]
    | some rv =>
      simp only [pyStrOK, Bool.and_eq_true] at hr
      simp only [objFieldsOf, List.mem_cons, List.mem_append,
        List.mem_singleton, List.not_mem_nil, or_false] at hf
      rcases hf with rfl | (rfl | rfl) | rfl
      · simp [fieldWF, valWF, pyStrOK, hkurl.1, hkurl.2, hu.1, hu.2]
      · simp [fieldWF, valWF, pyStrOK, hkorigin.1, hkorigin.2, ho.1, ho.2]
      · simp [fieldWF, valWF, pyStrOK, hkreferer.1, hkreferer.2, hr.1, hr.2]
      · simp [fieldWF, valWF, pyStrOK, hksrc.1, hksrc.2]

/-- A descriptor serialises to at most four members. -/
theorem objFieldsOf_len (d : ProxyData) : (objFieldsOf d).length ≤ 4 := by
  obtain ⟨u, o, r, b⟩ := d
  cases o <;> cases r <;> simp [objFieldsOf]

/-- Parsing the serialised descriptor returns its object. -/
theorem parseVal_dumpProxy (d : ProxyData) (hwf : d.wf = true) (g : Nat) :
    parseVal (g + 10) (jsonDumpProxy d) = some (PyJson.jobj (objFieldsOf d), []) := by
  rw [jsonDumpProxy_eq]
  have hne : objFieldsOf d ≠ [] := by
    obtain ⟨u, o, r, b⟩ := d
    simp [objFieldsOf]
  have hcons : ∃ f fs, objFieldsOf d = f :: fs := ⟨_, _, rfl⟩
  obtain ⟨f, fs, hf⟩ := hcons
  have hskip : skipWs (dumpFields (objFieldsOf d) ++ [125]) =
      dumpFields (objFieldsOf d) ++ [125] := by
    rw [hf]
    exact skipWs_dumpFields f fs [125]
  have hmem : parseMembers (g + 9) true (dumpFields (objFieldsOf d) ++ 125 :: []) =
      some (objFieldsOf d, []) :=
    parseMembers_dump (objFieldsOf d) (g + 9) true [] (objFieldsOf_wf d hwf)
      (by have := objFieldsOf_len d; omega) hne
  rw [parseVal]
  rw [skipWs_cons_not 123 _ (by decide)]
  simp [hskip, hmem]

/-- `json.loads` of the serialised descriptor. -/
theorem pyJsonLoads_dumpProxy (d : ProxyData) (hwf : d.wf = true) :
    pyJsonLoads (jsonDumpProxy d) = some (PyJson.jobj (objFieldsOf d)) := by
  have hlen : 9 ≤ (jsonDumpProxy d).length := by
    obtain ⟨u, o, r, b⟩ := d
    cases o <;> cases r <;> cases b <;>
      simp [jsonDumpProxy, jsonDumpStr, cp] <;> omega
  have hbom : pyStartsWith (jsonDumpProxy d) [65279] = false := by
    rw [jsonDumpProxy_eq]
    simp [pyStartsWith, List.isPrefixOf]
  obtain ⟨g, hg⟩ : ∃ g, (jsonDumpProxy d).length + 1 = g + 10 :=
    ⟨(jsonDumpProxy d).length - 9, by omega⟩
  unfold pyJsonLoads
  rw [hbom, hg, parseVal_dumpProxy d hwf g]
  simp [skipWs]

/-- Pydantic validation of the parsed fields recovers the descriptor. -/
theorem validate_objFieldsOf (d : ProxyData) :
    validateProxyData (objFieldsOf d) = some d := by
  obtain ⟨u, o, r, b⟩ := d
  cases o <;> cases r <;> rfl

/-- `hex4` emits ASCII. -/
theorem hex4_ascii (v : Nat) : ∀ x ∈ hex4 v, x < 128 := by
  intro x hx
  have h16 : ∀ n : Nat, n < 16 → hexDig n < 128 := by decide
  simp only [hex4, List.mem_cons, List.not_mem_nil, or_false] at hx
  rcases hx with rfl | rfl | rfl | rfl <;> exact h16 _ (by omega)

/-- `json.dumps` escapes are ASCII (`ensure_ascii=True`). -/
theorem jsonEsc_ascii (c : Nat) : ∀ x ∈ jsonEsc c, x < 128 := by
  intro x hx
  unfold jsonEsc at hx
  by_cases h92 : c = 92
  · simp [h92] at hx; omega
  · rw [if_neg h92] at hx
    by_cases h34 : c = 34
    · simp [h34] at hx; omega
    · rw [if_neg h34] at hx
      by_cases h8 : c = 8
      · simp [h8] at hx; omega
      · rw [if_neg h8] at hx
        by_cases h9 : c = 9
        · simp [h9] at hx; omega
        · rw [if_neg h9] at hx
          by_cases h10 : c = 10
          · simp [h10] at hx; omega
          · rw [if_neg h10] at hx
            by_cases h12 : c = 12
            · simp [h12] at hx; omega
            · rw [if_neg h12] at hx
              by_cases h13 : c = 13
              · simp [h13] at hx; omega
              · rw [if_neg h13] at hx
                by_cases hlow : c < 32
                · rw [if_pos hlow] at hx
                  rcases List.mem_cons.mp hx with rfl | hx1
                  · omega
                  rcases List.mem_cons.mp hx1 with rfl | hx2
                  · omega
                  exact hex4_ascii c x hx2
                · rw [if_neg hlow] at hx
                  by_cases hascii : c < 127
                  · rw [if_pos hascii] at hx
                    rcases List.mem_cons.mp hx with rfl | hx1
                    · omega
                    · simp at hx1
                  · rw [if_neg hascii] at hx
                    by_cases hbmp : c < 65536
                    · rw [if_pos hbmp] at hx
                      rcases List.mem_cons.mp hx with rfl | hx1
                      · omega
                      rcases List.mem_cons.mp hx1 with rfl | hx2
                      · omega
                      exact hex4_ascii c x hx2
                    · rw [if_neg hbmp] at hx
                      rcases List.mem_cons.mp hx with rfl | hx1
                      · omega
                      rcases List.mem_cons.mp hx1 with rfl | hx2
                      · omega
                      rcases List.mem_append.mp hx2 with hx3 | hx3
                      · exact hex4_ascii _ x hx3
                      rcases List.mem_cons.mp hx3 with rfl | hx4
                      · omega
                      rcases List.mem_cons.mp hx4 with rfl | hx5
                      · omega
                      exact hex4_ascii _ x hx5

/-- A dumped string is ASCII. -/
theorem jsonDumpStr_ascii (s : List Nat) : ∀ x ∈ jsonDumpStr s, x < 128 := by
  intro x hx
  rw [jsonDumpStr] at hx
  rcases List.mem_cons.mp hx with rfl | hx1
  · omega
  rcases List.mem_append.mp hx1 with hx2 | hx2
  · obtain ⟨c, _, hc⟩ := List.mem_flatMap.mp hx2
    exact jsonEsc_ascii c x hc
  · rcases List.mem_cons.mp hx2 with rfl | hx3
    · omega
    · simp at hx3

/-- The serialised descriptor is ASCII. -/
theorem jsonDumpProxy_ascii (d : ProxyData) : ∀ x ∈ jsonDumpProxy d, x < 128 := by
  have hfalse : ∀ x ∈ cp "false", x < 128 := by decide
  obtain ⟨u, o, r, b⟩ := d
  cases o <;> cases r <;> cases b <;>
    (simp only [jsonDumpProxy]
     repeat' refine List.forall_mem_append.mpr ⟨?_, ?_⟩
     all_goals
       first
         | exact hfalse
         | decide
         | (intro x hx
            rcases List.mem_cons.mp hx with rfl | hx2
            · omega
            · obtain ⟨c, _, hc⟩ := List.mem_flatMap.mp hx2
              exact jsonEsc_ascii c x hc))

/-- The padded encoding is ASCII. -/
theorem b64encode_lt128 (bs : List Nat) (hb : ∀ b ∈ bs, b < 256) :
    ∀ c ∈ b64encode bs, c < 128 := by
  obtain ⟨core, k, henc, hmem, _, _⟩ := b64encode_shape bs hb
  intro c hc
  rw [henc] at hc
  rcases List.mem_append.mp hc with hc2 | hc2
  · obtain ⟨v, hv, rfl⟩ := hmem c hc2
    exact (b64char_props v hv).2.2.2.2
  · rw [List.eq_of_mem_replicate hc2]
    omega

/-- `encode_proxy_data` never fails and produces the stripped base64 of the
serialised descriptor (the serialisation is ASCII). -/
theorem encode_proxy_eq (d : ProxyData) :
    encode_proxy_data d = some (rstripEq (b64encode (jsonDumpProxy d))) := by
  unfold encode_proxy_data
  rw [utf8Encode_ascii _ (jsonDumpProxy_ascii d)]
  rfl

/-- Decoding the token produced for a well-formed descriptor returns the
descriptor. -/
theorem decode_encode_proxy (d : ProxyData) (hwf : d.wf = true) :
    decode_proxy_data (rstripEq (b64encode (jsonDumpProxy d))) = Except.ok d := by
  have hascii := jsonDumpProxy_ascii d
  have hb : ∀ b ∈ jsonDumpProxy d, b < 256 := by
    intro b hbm
    have := hascii b hbm
    omega
  have hchars := rstrip_b64encode_chars (jsonDumpProxy d) hb
  have h46 : 46 ∉ rstripEq (b64encode (jsonDumpProxy d)) := by
    intro hmem
    obtain ⟨v, hv, hveq⟩ := hchars 46 hmem
    exact (b64char_props v hv).2.1 hveq.symm
  have hstrip : stripM3u8 (rstripEq (b64encode (jsonDumpProxy d))) =
      rstripEq (b64encode (jsonDumpProxy d)) := by
    unfold stripM3u8
    rw [not_endsWith_m3u8_of_no_dot _ h46]
    simp
  have hrepad := repad_rstrip_b64encode (jsonDumpProxy d) hb
  have hlt := b64encode_lt128 (jsonDumpProxy d) hb
  have hany : (b64encode (jsonDumpProxy d)).any (fun c => 128 ≤ c) = false := by
    rw [List.any_eq_false]
    intro c hc
    have := hlt c hc
    simp
    omega
  have hdec := a2b_encode (jsonDumpProxy d) hb
  have hutf := utf8Decode_ascii (jsonDumpProxy d) hascii
  have hloads := pyJsonLoads_dumpProxy d hwf
  have hval := validate_objFieldsOf d
  simp only [decode_proxy_data, hstrip, hrepad, hany, hdec, hutf, hloads, hval]
  simp

/-! ### Claim theorems -/

/-- C9 counterexample: the suffix strip of `decode_proxy_data` is not
idempotent on every string — on `"a.m3u8.m3u8"` a second strip removes a
second suffix. -/
theorem C9_strip_counterexample :
    stripM3u8 (stripM3u8 (cp "a.m3u8.m3u8")) ≠ stripM3u8 (cp "a.m3u8.m3u8") := by decide

/-- If a list ends with an appended suffix, `pyEndsWith` holds. -/
theorem pyEndsWith_append (t suf : List Nat) : pyEndsWith (t ++ suf) suf = true := by
  unfold pyEndsWith
  rw [List.isSuffixOf_iff_suffix]
  exact ⟨t, rfl⟩

/-- C9 (amended): on real tokens — the URL-safe base64 alphabet contains no
`.` — stripping is idempotent, both on a bare token and on a token carrying
one `.m3u8` extension hint: the second strip finds no suffix. -/
theorem C9_strip_idempotent (t : List Nat) (hdot : 46 ∉ t) :
    stripM3u8 (stripM3u8 t) = stripM3u8 t ∧
      stripM3u8 (stripM3u8 (t ++ cp ".m3u8")) = stripM3u8 (t ++ cp ".m3u8") := by
  have hstrip : stripM3u8 t = t := by
    unfold stripM3u8
    rw [not_endsWith_m3u8_of_no_dot t hdot]
    simp
  have hsuff : stripM3u8 (t ++ cp ".m3u8") = t := by
    unfold stripM3u8
    rw [pyEndsWith_append]
    simp [cp]
  constructor
  · rw [hstrip, hstrip]
  · rw [hsuff, hstrip]

/-- C9 witness: idempotence at the concrete token `"W10"`. -/
theorem C9_strip_idempotent_witness :
    (46 ∉ cp "W10") ∧
      stripM3u8 (stripM3u8 (cp "W10")) = stripM3u8 (cp "W10") ∧
      stripM3u8 (stripM3u8 (cp "W10" ++ cp ".m3u8")) = stripM3u8 (cp "W10" ++ cp ".m3u8") :=
  ⟨by decide, (C9_strip_idempotent (cp "W10") (by decide)).1,
    (C9_strip_idempotent (cp "W10") (by decide)).2⟩

/-- C8 counterexample: `determine_content_type` matches substrings, not
extensions: `https://host/file.tsv` has extension `.tsv` — its path ends
with none of the six listed extensions — yet it classifies as `video/mp2t`
instead of falling back to the upstream `text/plain`. -/
theorem C8_content_type_counterexample :
    determine_content_type (cp "https://host/file.tsv") (cp "text/plain") = cp "video/mp2t" ∧
      pyEndsWith (cp "https://host/file.tsv") (cp ".m3u8") = false ∧
      pyEndsWith (cp "https://host/file.tsv") (cp ".ts") = false ∧
      pyEndsWith (cp "https://host/file.tsv") (cp ".mp4") = false ∧
      pyEndsWith (cp "https://host/file.tsv") (cp ".webvtt") = false ∧
      pyEndsWith (cp "https://host/file.tsv") (cp ".vtt") = false ∧
      pyEndsWith (cp "https://host/file.tsv") (cp ".m4s") = false ∧
      cp "video/mp2t" ≠ cp "text/plain" := by decide

/-- C8 (amended): content-type resolution checks case-insensitive
substrings of the whole URL (query included) in the fixed priority `.m3u8`,
`.ts`, `.mp4`, `.webvtt`/`.vtt`, `.m4s`, taking precedence over the
upstream-declared type; when no substring occurs it falls back to the
upstream header, or `application/octet-stream` when that is empty/absent. -/
theorem C8_content_type_priority (url ct : List Nat) :
    (pyContains (pyLower url) (cp ".m3u8") = true →
      determine_content_type url ct = cp "application/vnd.apple.mpegurl") ∧
    (pyContains (pyLower url) (cp ".m3u8") = false →
      pyContains (pyLower url) (cp ".ts") = true →
      determine_content_type url ct = cp "video/mp2t") ∧
    (pyContains (pyLower url) (cp ".m3u8") = false →
      pyContains (pyLower url) (cp ".ts") = false →
      pyContains (pyLower url) (cp ".mp4") = true →
      determine_content_type url ct = cp "video/mp4") ∧
    (pyContains (pyLower url) (cp ".m3u8") = false →
      pyContains (pyLower url) (cp ".ts") = false →
      pyContains (pyLower url) (cp ".mp4") = false →
      (pyContains (pyLower url) (cp ".webvtt") = true ∨
        pyContains (pyLower url) (cp ".vtt") = true) →
      determine_content_type url ct = cp "text/vtt") ∧
    (pyContains (pyLower url) (cp ".m3u8") = false →
      pyContains (pyLower url) (cp ".ts") = false →
      pyContains (pyLower url) (cp ".mp4") = false →
      pyContains (pyLower url) (cp ".webvtt") = false →
      pyContains (pyLower url) (cp ".vtt") = false →
      pyContains (pyLower url) (cp ".m4s") = true →
      determine_content_type url ct = cp "video/iso.segment") ∧
    (pyContains (pyLower url) (cp ".m3u8") = false →
      pyContains (pyLower url) (cp ".ts") = false →
      pyContains (pyLower url) (cp ".mp4") = false →
      pyContains (pyLower url) (cp ".webvtt") = false →
      pyContains (pyLower url) (cp ".vtt") = false →
      pyContains (pyLower url) (cp ".m4s") = false →
      determine_content_type url ct = (if ct.isEmpty then cp "application/octet-stream" else ct)) := by
  refine ⟨?_, ?_, ?_, ?_, ?_, ?_⟩
  · intro h1
    simp [determine_content_type, h1]
  · intro h1 h2
    simp [determine_content_type, h1, h2]
  · intro h1 h2 h3
    simp [determine_content_type, h1, h2, h3]
  · intro h1 h2 h3 h4
    rcases h4 with h4 | h4 <;> simp [determine_content_type, h1, h2, h3, h4]
  · intro h1 h2 h3 h4 h5 h6
    simp [determine_content_type, h1, h2, h3, h4, h5, h6]
  · intro h1 h2 h3 h4 h5 h6
    simp [determine_content_type, h1, h2, h3, h4, h5, h6]

/-- C8 witness: the spec's own example — `.ts?token=abc` beats an upstream
`text/plain` — and the fallback at a URL with no media substring. -/
theorem C8_content_type_priority_witness :
    determine_content_type (cp "https://h/seg.ts?token=abc") (cp "text/plain") =
        cp "video/mp2t" ∧
      determine_content_type (cp "https://h/page.html") (cp "text/html") = cp "text/html" :=
  ⟨(C8_content_type_priority (cp "https://h/seg.ts?token=abc") (cp "text/plain")).2.1
      (by decide) (by decide),
    by
      have h := (C8_content_type_priority (cp "https://h/page.html") (cp "text/html")).2.2.2.2.2
        (by decide) (by decide) (by decide) (by decide) (by decide) (by decide)
      simpa using h⟩

/-- C4 counterexample: the token `"é"` (a single non-ASCII code point)
fails to decode — it is not URL-safe base64, the spec's `BadEncoding` — but
the failure is the plain `ValueError` of `base64._bytes_from_decode_data`,
caught by no `except` clause: the request surfaces as an uncaught error
(the framework's 500), not a 400-class response. -/
theorem C4_nonascii_counterexample :
    m3u8_proxy (cp "é") (cp "http://p/u") (fun _ => none)
        (fun _ _ => FetchResult.requestError) =
      (HandlerOutcome.uncaughtError, none) ∧
      HandlerOutcome.uncaughtError ≠ HandlerOutcome.clientError 400 :=
  ⟨rfl, by simp⟩

/-- C4 (amended): every token whose decode fails with one of the four
caught error classes (invalid base64, invalid UTF-8, malformed JSON, failed
validation) is answered with a 400 before any upstream fetch and with no
cache read or write: the outcome is a constant independent of the cache and
fetch oracles and the cache-write component is `none`. -/
theorem C4_decode_error_400 (tok u : List Nat) (cache : List Nat → Option CacheEntry)
    (fetch : List Nat → List (List Nat × List Nat) → FetchResult) (e : DecodeErr)
    (hdec : decode_proxy_data tok = Except.error e) (hcaught : e.caught = true) :
    m3u8_proxy tok u cache fetch = (HandlerOutcome.clientError 400, none) := by
  simp [m3u8_proxy, hdec, hcaught]

/-- C4 witness: the spec's own malformed token `"not-valid-base64!!!"`
(whose lenient base64 decode yields bytes that are not UTF-8) gets a 400
with no cache write, whatever the oracles. -/
theorem C4_decode_error_400_witness :
    decode_proxy_data (cp "not-valid-base64!!!") = Except.error DecodeErr.badUnicode ∧
      m3u8_proxy (cp "not-valid-base64!!!") (cp "http://p/u") (fun _ => none)
          (fun _ _ => FetchResult.requestError) =
        (HandlerOutcome.clientError 400, none) :=
  ⟨rfl,
    C4_decode_error_400 (cp "not-valid-base64!!!") (cp "http://p/u") (fun _ => none)
      (fun _ _ => FetchResult.requestError) DecodeErr.badUnicode rfl (by decide)⟩

/-- C5 counterexample: a token whose payload is `{"url":""}` — the required
`url` field present but the empty string — decodes successfully to a
descriptor with an empty URL (pydantic accepts the empty string for
`url: str`), instead of failing with `MissingURL` as claimed. -/
theorem C5_empty_url_counterexample :
    decode_proxy_data (cp "eyJ1cmwiOiIifQ") =
      Except.ok { url := [], origin := none, referer := none, src := false } := rfl

/-- C5 (amended): a payload object with no `url` key fails validation —
`decode_proxy_data` raises the 400 `ValidationError` and the handler
answers 400 with no upstream call and no cache interaction; an empty-string
`url`, however, is accepted (see the counterexample). -/
theorem C5_missing_url_400 (fields : List (List Nat × PyJson)) (tok u : List Nat)
    (cache : List Nat → Option CacheEntry)
    (fetch : List Nat → List (List Nat × List Nat) → FetchResult)
    (hnourl : objGetLast fields (cp "url") = none)
    (hdec : decode_proxy_data tok = Except.error DecodeErr.badFields) :
    validateProxyData fields = none ∧
      m3u8_proxy tok u cache fetch = (HandlerOutcome.clientError 400, none) := by
  constructor
  · unfold validateProxyData
    rw [hnourl]
  · simp [m3u8_proxy, hdec, DecodeErr.caught]

/-- C5 witness: the empty object `{}` (token `"e30"`) lacks `url`: its
validation fails and the request is answered 400. -/
theorem C5_missing_url_400_witness :
    validateProxyData [] = none ∧
      m3u8_proxy (cp "e30") (cp "http://p/u") (fun _ => none)
          (fun _ _ => FetchResult.requestError) =
        (HandlerOutcome.clientError 400, none) :=
  C5_missing_url_400 [] (cp "e30") (cp "http://p/u") (fun _ => none)
    (fun _ _ => FetchResult.requestError) rfl rfl

/-- Object check of the parsed payload. -/
def PyJson.isObj : PyJson → Bool
  | PyJson.jobj _ => true
  | _ => false

/-- C10: a token whose (ASCII) payload base64-decodes, is valid UTF-8, and
parses as JSON that is not an object makes `decode_proxy_data` fail with
the `TypeError` of `ProxyData(**data)`, which no `except` clause catches:
the handler outcome is the uncaught error — not a 400-class response —
with no cache interaction. -/
theorem C10_nondict_uncaught (tok u bytes text : List Nat) (v : PyJson)
    (cache : List Nat → Option CacheEntry)
    (fetch : List Nat → List (List Nat × List Nat) → FetchResult)
    (hascii : (stripM3u8 tok ++
      List.replicate ((4 - (stripM3u8 tok).length % 4) % 4) 61).any (fun c => 128 ≤ c) = false)
    (hb64 : urlsafe_b64decode (stripM3u8 tok ++
      List.replicate ((4 - (stripM3u8 tok).length % 4) % 4) 61) = some bytes)
    (hutf : utf8Decode bytes = some text)
    (hjson : pyJsonLoads text = some v)
    (hnotobj : v.isObj = false) :
    decode_proxy_data tok = Except.error DecodeErr.notDict ∧
      m3u8_proxy tok u cache fetch = (HandlerOutcome.uncaughtError, none) ∧
      (m3u8_proxy tok u cache fetch).1 ≠ HandlerOutcome.clientError 400 := by
  have hdec : decode_proxy_data tok = Except.error DecodeErr.notDict := by
    simp only [decode_proxy_data, hascii, hb64, hutf, hjson]
    cases v with
    | jobj fields => simp [PyJson.isObj] at hnotobj
    | jnull => simp
    | jbool b => simp
    | jnum l => simp
    | jstr l => simp
    | jarr l => simp
  refine ⟨hdec, ?_, ?_⟩
  · simp [m3u8_proxy, hdec, DecodeErr.caught]
  · simp [m3u8_proxy, hdec, DecodeErr.caught]

/-- C10 witness: the token `"W10"` (payload `[]`, a JSON array) escapes the
handlers. -/
theorem C10_nondict_uncaught_witness :
    decode_proxy_data (cp "W10") = Except.error DecodeErr.notDict ∧
      m3u8_proxy (cp "W10") (cp "http://p/u") (fun _ => none)
          (fun _ _ => FetchResult.requestError) =
        (HandlerOutcome.uncaughtError, none) ∧
      (m3u8_proxy (cp "W10") (cp "http://p/u") (fun _ => none)
          (fun _ _ => FetchResult.requestError)).1 ≠ HandlerOutcome.clientError 400 :=
  C10_nondict_uncaught (cp "W10") (cp "http://p/u") (cp "[]") (cp "[]")
    (PyJson.jarr []) (fun _ => none) (fun _ _ => FetchResult.requestError)
    (by decide) rfl rfl rfl rfl

/-- C2: a candidate reference line is resolved against
`originDescriptor.url`: an already-absolute line resolves to itself, the
spec's relative example resolves by RFC 3986 joining, and the descriptor
minted inside `rewrite_m3u8_urls` for a candidate line is
`newProxyData` of the resolved URL — it carries the parent's `origin` and
`referer` unchanged and always has `src = false`. -/
theorem C2_resolution_and_mint :
    (∀ base rel : List Nat, is_absolute_url rel = true → resolve_url base rel = rel) ∧
    resolve_url (cp "https://cdn.example.com/stream/index.m3u8") (cp "seg_001.ts") =
      cp "https://cdn.example.com/stream/seg_001.ts" ∧
    (∀ (d : ProxyData) (absoluteUrl : List Nat),
      (newProxyData d absoluteUrl).url = absoluteUrl ∧
      (newProxyData d absoluteUrl).origin = d.origin ∧
      (newProxyData d absoluteUrl).referer = d.referer ∧
      (newProxyData d absoluteUrl).src = false) ∧
    (∀ (d : ProxyData) (so line : List Nat),
      (pyStrip line).isEmpty = false →
      pyStartsWith (pyStrip line) (cp "#") = false →
      is_likely_media_url (pyStrip line) = true →
      rewriteLine d so line =
        (match encode_proxy_data (newProxyData d (resolve_url d.url (pyStrip line))) with
         | none => line
         | some tok => so ++ cp "/url/" ++ tok ++
             (if pyContains (pyLower (resolve_url d.url (pyStrip line))) (cp ".m3u8")
              then cp ".m3u8" else []))) := by
  refine ⟨?_, by decide, ?_, ?_⟩
  · intro base rel habs
    unfold resolve_url
    rw [habs]
    simp
  · intro d absoluteUrl
    exact ⟨rfl, rfl, rfl, rfl⟩
  · intro d so line h1 h2 h3
    simp [rewriteLine, h1, h2, h3]

/-- C2 witness: the quantified parts applied at concrete inputs — an
absolute line passing through resolution, the mint fields, and the
rewriting of the concrete relative line `seg_001.ts` into a proxied URL
carrying the token of the resolved segment URL. -/
theorem C2_resolution_and_mint_witness :
    resolve_url (cp "https://cdn.example.com/stream/index.m3u8")
        (cp "https://other.example.com/a.ts") = cp "https://other.example.com/a.ts" ∧
      (newProxyData ⟨cp "https://b.example/x.m3u8", some (cp "https://o.example"),
          some (cp "https://r.example"), true⟩ (cp "https://o/a.ts")).origin =
        some (cp "https://o.example") ∧
      rewriteLine ⟨cp "https://cdn.example.com/stream/index.m3u8", none, none, true⟩
          (cp "http://proxy") (cp "seg_001.ts") =
        cp ("http://proxy/url/" ++
          "eyJ1cmwiOiJodHRwczovL2Nkbi5leGFtcGxlLmNvbS9zdHJlYW0vc2VnXzAwMS50cyIsInNyYyI6ZmFsc2V9") :=
  ⟨C2_resolution_and_mint.1 _ _ (by decide),
    (C2_resolution_and_mint.2.2.1 _ _).2.1,
    by
      rw [C2_resolution_and_mint.2.2.2 _ _ _ (by decide) (by decide) (by decide)]
      rfl⟩

/-- C7 counterexample: the `.m3u8` extension hint is appended from a
substring check on the whole absolute URL, query string included — a line
whose URL path is `/seg.ts` (no `.m3u8` in the path) but whose query
contains `.m3u8` does get the suffix, contradicting the path-only claim. -/
theorem C7_query_suffix_counterexample :
    rewrite_m3u8_urls (cp "https://e.com/seg.ts?p=.m3u8")
        ⟨cp "https://e.com/master.m3u8", none, none, true⟩ (cp "http://proxy/url/x") =
      cp ("http://proxy/url/" ++
        "eyJ1cmwiOiJodHRwczovL2UuY29tL3NlZy50cz9wPS5tM3U4Iiwic3JjIjpmYWxzZX0" ++ ".m3u8") ∧
      (splitUrl (cp "https://e.com/seg.ts?p=.m3u8")).path = cp "/seg.ts" ∧
      pyContains (pyLower (splitUrl (cp "https://e.com/seg.ts?p=.m3u8")).path)
        (cp ".m3u8") = false ∧
      pyEndsWith (rewrite_m3u8_urls (cp "https://e.com/seg.ts?p=.m3u8")
          ⟨cp "https://e.com/master.m3u8", none, none, true⟩ (cp "http://proxy/url/x"))
        (cp ".m3u8") = true := by
  refine ⟨rfl, rfl, by decide, by decide⟩

/-- C7 (amended): a successfully rewritten candidate line becomes
`<serverOrigin>/url/<token>`, with a literal `.m3u8` appended iff `".m3u8"`
occurs case-insensitively anywhere in the resolved absolute URL (path or
query), not just in its path. -/
theorem C7_replacement_shape (d : ProxyData) (so line tok : List Nat)
    (h1 : (pyStrip line).isEmpty = false)
    (h2 : pyStartsWith (pyStrip line) (cp "#") = false)
    (h3 : is_likely_media_url (pyStrip line) = true)
    (henc : encode_proxy_data (newProxyData d (resolve_url d.url (pyStrip line))) = some tok) :
    rewriteLine d so line = so ++ cp "/url/" ++ tok ++
      (if pyContains (pyLower (resolve_url d.url (pyStrip line))) (cp ".m3u8")
       then cp ".m3u8" else []) := by
  simp [rewriteLine, h1, h2, h3, henc]

/-- C7 witness: the replacement of the relative line `seg_001.ts` against
the spec's base, token spelled out. -/
theorem C7_replacement_shape_witness :
    rewriteLine ⟨cp "https://cdn.example.com/stream/index.m3u8", none, none, true⟩
        (cp "http://proxy") (cp "seg_001.ts") =
      cp "http://proxy" ++ cp "/url/" ++
        cp "eyJ1cmwiOiJodHRwczovL2Nkbi5leGFtcGxlLmNvbS9zdHJlYW0vc2VnXzAwMS50cyIsInNyYyI6ZmFsc2V9" ++
        (if pyContains (pyLower (resolve_url (cp "https://cdn.example.com/stream/index.m3u8")
            (pyStrip (cp "seg_001.ts")))) (cp ".m3u8") then cp ".m3u8" else []) :=
  C7_replacement_shape ⟨cp "https://cdn.example.com/stream/index.m3u8", none, none, true⟩
    (cp "http://proxy") (cp "seg_001.ts")
    (cp "eyJ1cmwiOiJodHRwczovL2Nkbi5leGFtcGxlLmNvbS9zdHJlYW0vc2VnXzAwMS50cyIsInNyYyI6ZmFsc2V9")
    (by decide) (by decide) (by decide) rfl

/-- C3: rewriting is gated on `will_modify = src AND is-playlist`.  On a
cache miss with a successful fetch: a descriptor with `src = false` gets
the raw upstream bytes back unmodified — even if the body is playlist text
and the content classifies as a playlist; with `src = true` but content not
classified as a playlist the bytes are also unmodified; only with
`src = true` AND playlist classification is the body the re-encoded
rewrite of the upstream text. -/
theorem C3_rewrite_gate (tok u : List Nat) (cache : List Nat → Option CacheEntry)
    (fetch : List Nat → List (List Nat × List Nat) → FetchResult) (d : ProxyData)
    (resp : UpstreamResponse)
    (hdec : decode_proxy_data tok = Except.ok d)
    (hcache : cache tok = none)
    (hfetch : fetch d.url (buildHeaders d) = FetchResult.success resp) :
    (d.src = false →
      m3u8_proxy tok u cache fetch =
        (HandlerOutcome.response resp.content
            (determine_content_type d.url (resp.contentTypeHeader.getD []))
            (baseRespHeaders ++ passthroughHeaders resp),
          some (tok, (resp.content,
            determine_content_type d.url (resp.contentTypeHeader.getD []),
            baseRespHeaders ++ passthroughHeaders resp)))) ∧
    ((pyContains (pyLower d.url) (cp ".m3u8") ||
        (determine_content_type d.url (resp.contentTypeHeader.getD []) ==
          cp "application/vnd.apple.mpegurl")) = false →
      m3u8_proxy tok u cache fetch =
        (HandlerOutcome.response resp.content
            (determine_content_type d.url (resp.contentTypeHeader.getD []))
            (baseRespHeaders ++ passthroughHeaders resp),
          some (tok, (resp.content,
            determine_content_type d.url (resp.contentTypeHeader.getD []),
            baseRespHeaders ++ passthroughHeaders resp)))) ∧
    (d.src = true →
      (pyContains (pyLower d.url) (cp ".m3u8") ||
        (determine_content_type d.url (resp.contentTypeHeader.getD []) ==
          cp "application/vnd.apple.mpegurl")) = true →
      ∀ enc, utf8Encode (rewrite_m3u8_urls resp.text d u) = some enc →
      m3u8_proxy tok u cache fetch =
        (HandlerOutcome.response enc
            (determine_content_type d.url (resp.contentTypeHeader.getD []))
            (baseRespHeaders ++ []),
          some (tok, (enc,
            determine_content_type d.url (resp.contentTypeHeader.getD []),
            baseRespHeaders ++ [])))) := by
  refine ⟨?_, ?_, ?_⟩
  · intro hsrc
    simp [m3u8_proxy, hdec, hcache, hfetch, hsrc]
  · intro hgate
    simp [m3u8_proxy, hdec, hcache, hfetch, hgate]
  · intro hsrc hgate enc henc
    simp [m3u8_proxy, hdec, hcache, hfetch, hsrc, hgate, henc]

/-- C3 witness: a `src = false` descriptor (token of `{"url":""}`) whose
fetched body is playlist text served with the playlist MIME type comes back
byte-identical. -/
theorem C3_rewrite_gate_witness :
    m3u8_proxy (cp "eyJ1cmwiOiIifQ") (cp "http://p/u") (fun _ => none)
        (fun _ _ => FetchResult.success
          ⟨some (cp "application/vnd.apple.mpegurl"), cp "#EXTM3U\nseg.ts",
            cp "#EXTM3U\nseg.ts", none, none, none⟩) =
      (HandlerOutcome.response (cp "#EXTM3U\nseg.ts")
          (determine_content_type (cp "")
            ((some (cp "application/vnd.apple.mpegurl")).getD []))
          (baseRespHeaders ++ passthroughHeaders
            ⟨some (cp "application/vnd.apple.mpegurl"), cp "#EXTM3U\nseg.ts",
              cp "#EXTM3U\nseg.ts", none, none, none⟩),
        some (cp "eyJ1cmwiOiIifQ", (cp "#EXTM3U\nseg.ts",
          determine_content_type (cp "")
            ((some (cp "application/vnd.apple.mpegurl")).getD []),
          baseRespHeaders ++ passthroughHeaders
            ⟨some (cp "application/vnd.apple.mpegurl"), cp "#EXTM3U\nseg.ts",
              cp "#EXTM3U\nseg.ts", none, none, none⟩))) :=
  (C3_rewrite_gate (cp "eyJ1cmwiOiIifQ") (cp "http://p/u") (fun _ => none)
      (fun _ _ => FetchResult.success
        ⟨some (cp "application/vnd.apple.mpegurl"), cp "#EXTM3U\nseg.ts",
          cp "#EXTM3U\nseg.ts", none, none, none⟩)
      { url := [], origin := none, referer := none, src := false }
      ⟨some (cp "application/vnd.apple.mpegurl"), cp "#EXTM3U\nseg.ts",
        cp "#EXTM3U\nseg.ts", none, none, none⟩
      rfl rfl rfl).1 rfl

/-- `split` never returns an empty list of parts. -/
theorem pySplitCh_ne_nil (sep : Nat) (s : List Nat) : pySplitCh sep s ≠ [] := by
  cases s with
  | nil => simp [pySplitCh]
  | cons c t =>
    simp only [pySplitCh]
    by_cases h : c = sep
    · simp [h]
    · rw [if_neg h]
      cases pySplitCh sep t with
      | nil => simp
      | cons l ls => simp

/-- No part returned by `split` contains the separator. -/
theorem pySplitCh_no_sep (sep : Nat) (s : List Nat) :
    ∀ l ∈ pySplitCh sep s, sep ∉ l := by
  induction s with
  | nil =>
    intro l hl
    simp [pySplitCh] at hl
    simp [hl]
  | cons c t ih =>
    intro l hl
    simp only [pySplitCh] at hl
    by_cases h : c = sep
    · rw [if_pos h] at hl
      rcases List.mem_cons.mp hl with rfl | hl2
      · simp
      · exact ih l hl2
    · rw [if_neg h] at hl
      rcases hr : pySplitCh sep t with _ | ⟨l0, ls⟩
      · exact absurd hr (pySplitCh_ne_nil sep t)
      · rw [hr] at hl
        rcases List.mem_cons.mp hl with rfl | hl2
        · intro hmem
          rcases List.mem_cons.mp hmem with rfl | hmem2
          · exact h rfl
          · exact ih l0 (by rw [hr]; simp) hmem2
        · exact ih l (by rw [hr]; simp [hl2])

/-- `split` of a separator-free string is that one part. -/
theorem pySplitCh_no_sep_id (sep : Nat) (l : List Nat) (h : sep ∉ l) :
    pySplitCh sep l = [l] := by
  induction l with
  | nil => rfl
  | cons c t ih =>
    have hc : c ≠ sep := by
      intro hc
      exact h (by simp [hc])
    simp only [pySplitCh]
    rw [if_neg hc, ih (fun hm => h (by simp [hm]))]

/-- `split` after an initial separator-free part. -/
theorem pySplitCh_append (sep : Nat) (l rest : List Nat) (h : sep ∉ l) :
    pySplitCh sep (l ++ sep :: rest) = l :: pySplitCh sep rest := by
  induction l with
  | nil => simp [pySplitCh]
  | cons c t ih =>
    have hc : c ≠ sep := by
      intro hc
      exact h (by simp [hc])
    simp only [List.cons_append, pySplitCh]
    rw [if_neg hc]
    have heq : t.append (sep :: rest) = t ++ sep :: rest := rfl
    rw [heq, ih (fun hm => h (by simp [hm]))]

/-- `split` inverts `join` on separator-free parts. -/
theorem pySplitCh_pyJoinNl (ls : List (List Nat)) (hne : ls ≠ [])
    (h : ∀ l ∈ ls, 10 ∉ l) : pySplitCh 10 (pyJoinNl ls) = ls := by
  induction ls with
  | nil => exact absurd rfl hne
  | cons l ls2 ih =>
    cases ls2 with
    | nil =>
      rw [show pyJoinNl [l] = l from rfl]
      exact pySplitCh_no_sep_id 10 l (h l (by simp))
    | cons l2 ls3 =>
      rw [show pyJoinNl (l :: l2 :: ls3) = l ++ 10 :: pyJoinNl (l2 :: ls3) from rfl,
        pySplitCh_append 10 l _ (h l (by simp)),
        ih (by simp) (fun x hx => h x (by simp [hx]))]

/-- UTF-8 encoded output is bytes. -/
theorem utf8Encode_lt256 (s bs : List Nat) (h : utf8Encode s = some bs) :
    ∀ b ∈ bs, b < 256 := by
  induction s generalizing bs with
  | nil =>
    simp only [utf8Encode, Option.pure_def, Option.some.injEq] at h
    subst h
    simp
  | cons c t ih =>
    simp only [utf8Encode, Option.pure_def, Option.bind_eq_bind, Option.bind_eq_some] at h
    obtain ⟨hd, hhd, rest, hrest, heq⟩ := h
    rw [Option.some.injEq] at heq
    subst heq
    intro b hb
    rcases List.mem_append.mp hb with hb2 | hb2
    · unfold utf8EncodeCh at hhd
      by_cases h1 : c < 128
      · rw [if_pos h1] at hhd
        simp at hhd
        subst hhd
        simp at hb2
        omega
      · rw [if_neg h1] at hhd
        by_cases h2 : c < 2048
        · rw [if_pos h2] at hhd
          simp at hhd
          subst hhd
          simp at hb2
          rcases hb2 with rfl | rfl <;> omega
        · rw [if_neg h2] at hhd
          by_cases h3 : c < 65536
          · rw [if_pos h3] at hhd
            by_cases h4 : 55296 ≤ c ∧ c ≤ 57343
            · simp [h4] at hhd
            · rw [if_neg h4] at hhd
              simp at hhd
              subst hhd
              simp at hb2
              rcases hb2 with rfl | rfl | rfl <;> omega
          · rw [if_neg h3] at hhd
            by_cases h5 : c < 1114112
            · rw [if_pos h5] at hhd
              simp at hhd
              subst hhd
              simp at hb2
              rcases hb2 with rfl | rfl | rfl | rfl <;> omega
            · simp [h5] at hhd
    · exact ih rest hrest b hb2

/-- Characters of any minted token are URL-safe alphabet characters. -/
theorem encode_tok_chars (d : ProxyData) (tok : List Nat)
    (h : encode_proxy_data d = some tok) :
    ∀ c ∈ tok, ∃ v, v < 64 ∧ c = b64char v := by
  unfold encode_proxy_data at h
  cases hu : utf8Encode (jsonDumpProxy d) with
  | none => rw [hu] at h; simp at h
  | some bs =>
    rw [hu] at h
    simp only [Option.map_some, Option.map_some', Option.some.injEq] at h
    subst h
    exact rstrip_b64encode_chars bs (utf8Encode_lt256 _ bs hu)

/-- Membership in an `if` between two lists is membership in a branch. -/
theorem mem_ite_cases {α : Type} (c : Prop) [Decidable c] (l1 l2 : List α) (x : α)
    (hx : x ∈ (if c then l1 else l2)) : x ∈ l1 ∨ x ∈ l2 := by
  split at hx
  · exact Or.inl hx
  · exact Or.inr hx

/-- Every character of the derived server origin is a literal of `"://"`, an
ASCII-lowered character of the request URL, or a character of the request
URL. -/
theorem serverOrigin_chars (u : List Nat) :
    ∀ x ∈ serverOriginOf u, x ∈ cp "://" ∨ (∃ c ∈ u, x = asciiLowerCh c) ∨ x ∈ u := by
  intro x hx
  unfold serverOriginOf pyUrlparseSchemeNetloc at hx
  simp only [List.mem_append] at hx
  rcases hx with (hx | hx) | hx
  · rcases mem_ite_cases _ _ _ _ hx with hx2 | hx2
    · obtain ⟨c, hc, hceq⟩ := List.mem_map.mp hx2
      exact Or.inr (Or.inl ⟨c, (List.takeWhile_sublist _).subset hc, hceq.symm⟩)
    · simp at hx2
  · exact Or.inl hx
  · rcases mem_ite_cases _ _ _ _ hx with hx2 | hx2
    · have h1 := (List.takeWhile_sublist _).subset hx2
      have h2 := List.drop_subset _ _ h1
      rcases mem_ite_cases _ _ _ _ h2 with hx3 | hx3
      · exact Or.inr (Or.inr (List.drop_subset _ _ hx3))
      · exact Or.inr (Or.inr hx3)
    · simp at hx2

/-- The server origin contains no CR or LF that the request URL lacks. -/
theorem serverOrigin_no_crlf (u : List Nat) (h10 : 10 ∉ u) (h13 : 13 ∉ u) :
    10 ∉ serverOriginOf u ∧ 13 ∉ serverOriginOf u := by
  have hlo : ∀ c x : Nat, x = asciiLowerCh c → (x = 10 ∨ x = 13) → c = x := by
    intro c x hx hor
    unfold asciiLowerCh at hx
    split at hx <;> omega
  constructor <;>
    (intro hmem
     rcases serverOrigin_chars u _ hmem with hc | ⟨c, hcu, hceq⟩ | hcu
     · simp [cp] at hc
     · have := hlo c _ hceq (by simp)
       subst this
       first
         | exact h10 (hceq ▸ hcu)
         | exact h13 (hceq ▸ hcu)
     · first
         | exact h10 hcu
         | exact h13 hcu)

/-- Each rewritten line is either the original line (pass-through or
per-line failure) or a freshly built proxied URL containing neither LF nor
CR. -/
theorem rewriteLine_cases (d : ProxyData) (so line : List Nat)
    (hso10 : 10 ∉ so) (hso13 : 13 ∉ so) :
    rewriteLine d so line = line ∨
      (10 ∉ rewriteLine d so line ∧ 13 ∉ rewriteLine d so line) := by
  by_cases hA : (pyStrip line).isEmpty = true
  · left
    simp [rewriteLine, hA]
  · rw [Bool.not_eq_true] at hA
    by_cases hB : pyStartsWith (pyStrip line) (cp "#") = true
    · left
      simp [rewriteLine, hA, hB]
    · rw [Bool.not_eq_true] at hB
      by_cases h2 : is_likely_media_url (pyStrip line) = true
      · cases henc : encode_proxy_data (newProxyData d (resolve_url d.url (pyStrip line))) with
        | none =>
          left
          simp [rewriteLine, hA, hB, h2, henc]
        | some tok =>
          right
          have hEq : rewriteLine d so line = so ++ cp "/url/" ++ tok ++
              (if pyContains (pyLower (resolve_url d.url (pyStrip line))) (cp ".m3u8")
               then cp ".m3u8" else []) := by
            simp [rewriteLine, hA, hB, h2, henc]
          rw [hEq]
          have htokc := encode_tok_chars _ _ henc
          constructor <;>
            (intro hmem
             rcases List.mem_append.mp hmem with hm | hm
             · rcases List.mem_append.mp hm with hm1 | hm1
               · rcases List.mem_append.mp hm1 with hm0 | hm0
                 · first
                     | exact hso10 hm0
                     | exact hso13 hm0
                 · simp [cp] at hm0
               · obtain ⟨v, hv, hveq⟩ := htokc _ hm1
                 first
                   | exact (b64char_props v hv).2.2.1 hveq.symm
                   | exact (b64char_props v hv).2.2.2.1 hveq.symm
             · rcases mem_ite_cases _ _ _ _ hm with hm4 | hm4
               · simp [cp] at hm4
               · simp at hm4)
      · rw [Bool.not_eq_true] at h2
        left
        simp [rewriteLine, hA, hB, h2]

/-- C6 counterexample: `rewrite_m3u8_urls` does not normalise `\r\n`:
the input `"#A\r\nB"` (a comment line with a CRLF ending) is returned
byte-identical, its first output line still carrying the trailing CR. -/
theorem C6_crlf_counterexample :
    rewrite_m3u8_urls (cp "#A\r\nB") ⟨cp "https://e.com/m.m3u8", none, none, true⟩
        (cp "http://p/u") = cp "#A\r\nB" ∧
      (pySplitCh 10 (rewrite_m3u8_urls (cp "#A\r\nB")
          ⟨cp "https://e.com/m.m3u8", none, none, true⟩ (cp "http://p/u"))).head? =
        some (cp "#A\r") ∧
      13 ∈ rewrite_m3u8_urls (cp "#A\r\nB") ⟨cp "https://e.com/m.m3u8", none, none, true⟩
        (cp "http://p/u") := by
  refine ⟨rfl, rfl, by decide⟩

/-- C6 (amended): `rewrite_m3u8_urls` splits on `"\n"` and joins with a
single `"\n"`, so the line structure is preserved position by position: the
split of the output is exactly the per-line rewrite of the split of the
input, and every output line either is its input line unchanged (with any
trailing `\r` retained — `\r\n` is not normalised) or is a freshly minted
proxied-URL line containing neither LF nor CR. -/
theorem C6_line_structure (content : List Nat) (d : ProxyData) (u : List Nat)
    (h10 : 10 ∉ u) (h13 : 13 ∉ u) :
    pySplitCh 10 (rewrite_m3u8_urls content d u) =
      (pySplitCh 10 content).map (rewriteLine d (serverOriginOf u)) ∧
      (pySplitCh 10 (rewrite_m3u8_urls content d u)).length =
        (pySplitCh 10 content).length ∧
      ∀ l ∈ pySplitCh 10 (rewrite_m3u8_urls content d u),
        l ∈ pySplitCh 10 content ∨ (10 ∉ l ∧ 13 ∉ l) := by
  obtain ⟨hso10, hso13⟩ := serverOrigin_no_crlf u h10 h13
  have hlines : ∀ l ∈ (pySplitCh 10 content).map (rewriteLine d (serverOriginOf u)),
      10 ∉ l := by
    intro l hl
    obtain ⟨l0, hl0, rfl⟩ := List.mem_map.mp hl
    rcases rewriteLine_cases d (serverOriginOf u) l0 hso10 hso13 with heq | ⟨hn, _⟩
    · rw [heq]
      exact pySplitCh_no_sep 10 content l0 hl0
    · exact hn
  have hsplit : pySplitCh 10 (rewrite_m3u8_urls content d u) =
      (pySplitCh 10 content).map (rewriteLine d (serverOriginOf u)) := by
    unfold rewrite_m3u8_urls
    refine pySplitCh_pyJoinNl _ ?_ hlines
    intro hmap
    exact pySplitCh_ne_nil 10 content (List.map_eq_nil_iff.mp hmap)
  refine ⟨hsplit, by rw [hsplit]; simp, ?_⟩
  intro l hl
  rw [hsplit] at hl
  obtain ⟨l0, hl0, rfl⟩ := List.mem_map.mp hl
  rcases rewriteLine_cases d (serverOriginOf u) l0 hso10 hso13 with heq | ⟨hn, hr⟩
  · rw [heq]
    exact Or.inl hl0
  · exact Or.inr ⟨hn, hr⟩

/-- C6 witness: the playlist of the spec's end-to-end scenario — comments
pass through, the reference line is rewritten with no CR/LF inside. -/
theorem C6_line_structure_witness :
    pySplitCh 10 (rewrite_m3u8_urls (cp "#EXTM3U\nseg_001.ts")
        ⟨cp "https://cdn.example.com/stream/index.m3u8", none, none, true⟩
        (cp "http://proxy/url/x")) =
      (pySplitCh 10 (cp "#EXTM3U\nseg_001.ts")).map
        (rewriteLine ⟨cp "https://cdn.example.com/stream/index.m3u8", none, none, true⟩
          (serverOriginOf (cp "http://proxy/url/x"))) :=
  (C6_line_structure (cp "#EXTM3U\nseg_001.ts")
    ⟨cp "https://cdn.example.com/stream/index.m3u8", none, none, true⟩
    (cp "http://proxy/url/x") (by decide) (by decide)).1

/-- C1 counterexample: a descriptor whose `url` is the two code points
U+D83D U+DE00 (a high and a low surrogate, a legal Python `str`) encodes to
a token that decodes to the single code point U+1F600: `json.dumps` writes
the pair as two `\uXXXX` escapes and `json.loads` re-combines them, so
`Decode(Encode(d)) ≠ d` for this non-empty-url descriptor. -/
theorem C1_surrogate_counterexample :
    encode_proxy_data ⟨[55357, 56832], none, none, false⟩ =
      some (cp "eyJ1cmwiOiJcdWQ4M2RcdWRlMDAiLCJzcmMiOmZhbHNlfQ") ∧
      decode_proxy_data (cp "eyJ1cmwiOiJcdWQ4M2RcdWRlMDAiLCJzcmMiOmZhbHNlfQ") =
        Except.ok ⟨[128512], none, none, false⟩ ∧
      ([55357, 56832] : List Nat) ≠ [] ∧
      (⟨[128512], none, none, false⟩ : ProxyData) ≠ ⟨[55357, 56832], none, none, false⟩ :=
  ⟨rfl, rfl, by decide, by decide⟩

/-- C1 (amended): for every descriptor with a non-empty `url` whose string
fields are well-formed — no code point above `0x10FFFF` and no adjacent
high-then-low surrogate pair, true of every real URL and header value —
encoding never fails and decoding the token returns the descriptor exactly:
the `url` byte-for-byte, absent optional fields still absent. -/
theorem C1_roundtrip (d : ProxyData) (hurl : d.url ≠ []) (hwf : d.wf = true) :
    ∃ t, encode_proxy_data d = some t ∧ decode_proxy_data t = Except.ok d :=
  ⟨_, encode_proxy_eq d, decode_encode_proxy d hwf⟩

/-- C1 witness: the round trip at a concrete descriptor with a
percent-encoded query URL, a present `origin` and an absent `referer`. -/
theorem C1_roundtrip_witness :
    (⟨cp "https://cdn.example.com/master.m3u8?tok=a%20b",
        some (cp "https://site.example"), none, true⟩ : ProxyData).url ≠ [] ∧
      (⟨cp "https://cdn.example.com/master.m3u8?tok=a%20b",
          some (cp "https://site.example"), none, true⟩ : ProxyData).wf = true ∧
      ∃ t, encode_proxy_data ⟨cp "https://cdn.example.com/master.m3u8?tok=a%20b",
          some (cp "https://site.example"), none, true⟩ = some t ∧
        decode_proxy_data t = Except.ok ⟨cp "https://cdn.example.com/master.m3u8?tok=a%20b",
          some (cp "https://site.example"), none, true⟩ :=
  ⟨by decide, by decide,
    C1_roundtrip ⟨cp "https://cdn.example.com/master.m3u8?tok=a%20b",
      some (cp "https://site.example"), none, true⟩ (by decide) (by decide)⟩
